import Mathlib

/-!
# Verification of the tariff-extraction reconciliation engine

Shallow embedding of the data-manipulating core of the `lee_project`
repository, together with proofs and refutations of its specification
claims.

Embedded source functions (file and symbol named at each definition):
* `src/database.py` — `TariffDatabase.upsert_or_merge_tariff_item`,
  `TariffDatabase.insert_tariff_item`,
  `TariffDatabase.delete_tariff_items_by_doc`
* `src/tariff_extractor_v3.py` / `src/tariff_extractor_ocr.py` —
  the persistence step of `process_single_pdf`, and
  `BaseCountryParser.parse_response`
* `src/parsers/base_parser.py` — `normalize_case_number`
* `src/parsers/usa_parser.py` — `validate_usa_hs_code`,
  `USATextParser.process` (expansion step), `_deduplicate_items`,
  `USATextParser.parse_response` (validation step)
* `src/parsers/eu_parser.py` — `EUTextParser.normalize_hs_code`,
  `EUTextParser.post_process_items`
* `src/parsers/australia_parser.py` — `AustraliaTextParser.expand_hs_codes`

Scalar field values are modelled as opaque `String`s (SQLite stores TEXT
or REAL; the merge/expansion logic never computes with the numbers, it
only tests nullness and equality).  Python `None` is `Option.none`.
-/

namespace Tariff

/-! ## Data model

A tariff item as handed to the database layer: the thirteen optional
scalar fields that `upsert_or_merge_tariff_item` reads out of its `item`
dict (`src/database.py` lines 143-185).  A key absent from the Python
dict behaves exactly like a key mapped to `None` under `item.get(...)`,
so `Option` covers both. -/
structure Item where
  country : Option String
  company : Option String
  hs_code : Option String
  case_number : Option String
  tariff_type : Option String
  tariff_rate : Option String
  effective_date_from : Option String
  effective_date_to : Option String
  investigation_period_from : Option String
  investigation_period_to : Option String
  basis_law : Option String
  product_description : Option String
  note : Option String
deriving DecidableEq, Repr

/-- The column names of `tariff_items` that `upsert_or_merge_tariff_item`
inspects in its `fields_to_check` list (`src/database.py` lines 170-185). -/
inductive FieldName where
  | tariff_type
  | tariff_rate
  | effective_date_from
  | effective_date_to
  | investigation_period_from
  | investigation_period_to
  | basis_law
  | product_description
  | note
  | country
  | company
  | hs_code
  | case_number
deriving DecidableEq, Repr

def fieldGet (f : FieldName) (it : Item) : Option String :=
  match f with
  | .tariff_type => it.tariff_type
  | .tariff_rate => it.tariff_rate
  | .effective_date_from => it.effective_date_from
  | .effective_date_to => it.effective_date_to
  | .investigation_period_from => it.investigation_period_from
  | .investigation_period_to => it.investigation_period_to
  | .basis_law => it.basis_law
  | .product_description => it.product_description
  | .note => it.note
  | .country => it.country
  | .company => it.company
  | .hs_code => it.hs_code
  | .case_number => it.case_number

def fieldSet (f : FieldName) (v : Option String) (it : Item) : Item :=
  match f with
  | .tariff_type => { it with tariff_type := v }
  | .tariff_rate => { it with tariff_rate := v }
  | .effective_date_from => { it with effective_date_from := v }
  | .effective_date_to => { it with effective_date_to := v }
  | .investigation_period_from => { it with investigation_period_from := v }
  | .investigation_period_to => { it with investigation_period_to := v }
  | .basis_law => { it with basis_law := v }
  | .product_description => { it with product_description := v }
  | .note => { it with note := v }
  | .country => { it with country := v }
  | .company => { it with company := v }
  | .hs_code => { it with hs_code := v }
  | .case_number => { it with case_number := v }

/-- The `fields_to_check` list of `upsert_or_merge_tariff_item`
(`src/database.py` lines 170-185), in source order: nine non-key fields
followed by the four key fields ("키 필드도 null이면 채움"). -/
def fields_to_check (item : Item) : List (FieldName × Option String) :=
  [ (.tariff_type, item.tariff_type),
    (.tariff_rate, item.tariff_rate),
    (.effective_date_from, item.effective_date_from),
    (.effective_date_to, item.effective_date_to),
    (.investigation_period_from, item.investigation_period_from),
    (.investigation_period_to, item.investigation_period_to),
    (.basis_law, item.basis_law),
    (.product_description, item.product_description),
    (.note, item.note),
    (.country, item.country),
    (.company, item.company),
    (.hs_code, item.hs_code),
    (.case_number, item.case_number) ]

/-- One persisted row of the `tariff_items` table (`src/database.py`
lines 52-73): AUTOINCREMENT primary key, owning document, the
document-level `issuing_country`, and the thirteen scalar fields.
`created_at` carries no program-visible information and is omitted. -/
structure TariffRow where
  tariff_id : Nat
  doc_id : Nat
  issuing_country : Option String
  fields : Item
deriving DecidableEq, Repr

/-- The `tariff_items` table plus the AUTOINCREMENT counter that hands
out the next `tariff_id`. -/
structure DB where
  rows : List TariffRow
  next_id : Nat
deriving DecidableEq, Repr

/-- The identity-tuple match of the SELECT in `upsert_or_merge_tariff_item`
(`src/database.py` lines 149-160).  Each SQL conjunct
`(col = ? OR (col IS NULL AND ? IS NULL))` is true exactly when the two
`Option` values are equal: `a = b` on non-NULLs, or both NULL. -/
def identMatch (row : TariffRow) (item : Item) : Bool :=
  row.fields.country == item.country &&
  row.fields.company == item.company &&
  row.fields.hs_code == item.hs_code &&
  row.fields.case_number == item.case_number

/-- Apply the staged `updates` dict as the UPDATE statement does
(`src/database.py` lines 192-201): each staged column is set to its new
value. -/
def applyUpdates (it : Item) (ups : List (FieldName × Option String)) : Item :=
  ups.foldl (fun acc fv => fieldSet fv.1 fv.2 acc) it

/-- `TariffDatabase.upsert_or_merge_tariff_item` (`src/database.py`
lines 131-238).  The cursor's `fetchone` yields the first row (in rowid
order) of the same document whose identity tuple matches; if none, the
item is INSERTed with a fresh id and the function returns the string
"inserted".  Otherwise every field that is NULL on the existing row and
non-NULL on the item is staged (`updates`), and the function returns
"merged" if any update was applied and "skipped" if none was.  The
`except` path (storage errors, returning "error") cannot arise in the
pure model and is not represented. -/
def upsert_or_merge_tariff_item (db : DB) (doc_id : Nat) (item : Item)
    (issuing_country : Option String) : DB × String :=
  match db.rows.find? (fun r => r.doc_id == doc_id && identMatch r item) with
  | some existing =>
      let updates := (fields_to_check item).filter
        (fun fv => fieldGet fv.1 existing.fields == none && fv.2 != none)
      if updates.isEmpty then
        (db, "skipped")
      else
        ({ db with rows := db.rows.map (fun r =>
            if r.tariff_id == existing.tariff_id then
              { r with fields := applyUpdates r.fields updates }
            else r) },
         "merged")
  | none =>
      ({ rows := db.rows ++
          [⟨db.next_id, doc_id, issuing_country, item⟩],
         next_id := db.next_id + 1 },
       "inserted")

/-- Null-filling on one field: keep a non-null existing value, otherwise
take the incoming one.  This is the net effect of staging an update
exactly when `existing[field] is None and new_value is not None`. -/
def mergeField (old new : Option String) : Option String :=
  match old with
  | some v => some v
  | none => new

/-- Pointwise null-filling of a whole record. -/
def mergeItem (old new : Item) : Item :=
  { country := mergeField old.country new.country,
    company := mergeField old.company new.company,
    hs_code := mergeField old.hs_code new.hs_code,
    case_number := mergeField old.case_number new.case_number,
    tariff_type := mergeField old.tariff_type new.tariff_type,
    tariff_rate := mergeField old.tariff_rate new.tariff_rate,
    effective_date_from := mergeField old.effective_date_from new.effective_date_from,
    effective_date_to := mergeField old.effective_date_to new.effective_date_to,
    investigation_period_from := mergeField old.investigation_period_from new.investigation_period_from,
    investigation_period_to := mergeField old.investigation_period_to new.investigation_period_to,
    basis_law := mergeField old.basis_law new.basis_law,
    product_description := mergeField old.product_description new.product_description,
    note := mergeField old.note new.note }

/-! ## The persistence step of document processing

Both extractor entry points persist a processed document the same way
(`src/tariff_extractor_v3.py` lines 973-977 and
`src/tariff_extractor_ocr.py` lines 96-100): they delete the document's
existing rows and re-insert the freshly extracted items with
`insert_tariff_item`.  Neither calls `upsert_or_merge_tariff_item`, and
no pass over the grouping key (`case_number`) exists anywhere in the
repository. -/

/-- `TariffDatabase.delete_tariff_items_by_doc` (`src/database.py`
lines 278-281): `DELETE FROM tariff_items WHERE doc_id = ?`. -/
def delete_tariff_items_by_doc (db : DB) (doc_id : Nat) : DB :=
  { db with rows := db.rows.filter (fun r => r.doc_id != doc_id) }

/-- `TariffDatabase.insert_tariff_item` (`src/database.py`
lines 240-276): a plain INSERT of all fifteen columns with a fresh
AUTOINCREMENT id. -/
def insert_tariff_item (db : DB) (doc_id : Nat) (item : Item)
    (issuing_country : Option String) : DB :=
  { rows := db.rows ++ [⟨db.next_id, doc_id, issuing_country, item⟩],
    next_id := db.next_id + 1 }

/-- The tariff-table effect of `process_single_pdf`
(`src/tariff_extractor_v3.py` lines 973-977, identically
`src/tariff_extractor_ocr.py` lines 96-100): delete the document's rows,
then insert each extracted item in order.  The v3 extractor passes no
`issuing_country` to `insert_tariff_item` (so it defaults to `None`); the
OCR extractor passes the detected one — the parameter covers both. -/
def process_single_pdf_persist (db : DB) (doc_id : Nat) (items : List Item)
    (issuing_country : Option String) : DB :=
  items.foldl (fun d it => insert_tariff_item d doc_id it issuing_country)
    (delete_tariff_items_by_doc db doc_id)

/-- The persisted field values of one document's rows, in row order. -/
def docFields (db : DB) (doc_id : Nat) : List Item :=
  (db.rows.filter (fun r => r.doc_id == doc_id)).map TariffRow.fields

/-! ## Field normalizers (`src/parsers/base_parser.py`, `usa_parser.py`,
`eu_parser.py`)

The normalizers work on Python strings; we model them on `List Char`
with `String` wrappers.  `str.strip()` removes ASCII whitespace at both
ends (the ASCII subset of Python's definition — no other whitespace
reaches these call sites). -/

def pyIsSpace (c : Char) : Bool :=
  c = ' ' || c = '\t' || c = '\n' || c = '\r' || c = '\x0b' || c = '\x0c'

/-- Python `str.strip()` (both ends; removing from either end first
yields the same function). -/
def pyStrip (cs : List Char) : List Char :=
  (cs.rdropWhile pyIsSpace).dropWhile pyIsSpace

/-- The letter class of `re.match(r'^[AC]-...', ..., re.IGNORECASE)`:
only `A` and `C` (either case) are accepted — not an arbitrary letter. -/
def isCaseLetter (c : Char) : Bool :=
  c = 'A' || c = 'C' || c = 'a' || c = 'c'

/-- `re.match(r'^[AC]-\d{3}-\d{3}$', s, re.IGNORECASE)`
(`src/parsers/base_parser.py` line 45) as a whole-string test. -/
def isCasePattern : List Char → Bool
  | [l, h1, d1, d2, d3, h2, e1, e2, e3] =>
      isCaseLetter l && h1 = '-' && h2 = '-' &&
      d1.isDigit && d2.isDigit && d3.isDigit &&
      e1.isDigit && e2.isDigit && e3.isDigit
  | _ => false

/-- The pattern the claim states: `{LETTER}-{3 digits}-{3 digits}` with
an arbitrary letter.  Kept separate from the source-derived
`isCasePattern` for comparison. -/
def claimLetterPattern : List Char → Bool
  | [l, h1, d1, d2, d3, h2, e1, e2, e3] =>
      l.isAlpha && h1 = '-' && h2 = '-' &&
      d1.isDigit && d2.isDigit && d3.isDigit &&
      e1.isDigit && e2.isDigit && e3.isDigit
  | _ => false

/-- `normalize_case_number` (`src/parsers/base_parser.py` lines 16-48).
Python falsiness of a string is emptiness; the literal string "null" is
also rejected up front.  Dash variants are replaced, then — only when a
comma or semicolon is present — the first separated segment is kept and
re-stripped, then all spaces are removed, and the result is kept exactly
when it matches the `[AC]-\d{3}-\d{3}` pattern case-insensitively.
(Call sites pass JSON string fields; the `str()` coercion for non-string
values is outside the modelled domain.) -/
def normalize_case_number (case_number : Option String) : Option String :=
  match case_number with
  | none => none
  | some s =>
    if s = "" || s = "null" then none
    else
      let cs0 := pyStrip s.data
      let cs1 := cs0.map (fun c => if c = '–' then '-' else c)
      let cs2 := cs1.map (fun c => if c = '—' then '-' else c)
      let cs3 := if cs2.contains ',' || cs2.contains ';' then
          pyStrip (cs2.takeWhile (fun c => !(c = ',' || c = ';')))
        else cs2
      let cs4 := cs3.filter (fun c => c != ' ')
      if isCasePattern cs4 then some (String.mk cs4) else none

/-- Modelled from the amended specification wording of case-identifier
normalization, for refinement comparison with `normalize_case_number`:
strip the input, normalize en- and em-dashes to a plain hyphen, keep only
the first identifier before any comma/semicolon separator, remove all
spaces, and return the result exactly when it matches
`{A or C, either case}-{3 digits}-{3 digits}`; empty, missing or
literal-"null" inputs yield null. -/
def caseNumberSpec (x : Option String) : Option String :=
  match x with
  | none => none
  | some s =>
    if s = "" || s = "null" then none
    else
      let dashless := (pyStrip s.data).map
        (fun c => if c = '–' || c = '—' then '-' else c)
      let first := pyStrip (dashless.takeWhile (fun c => !(c = ',' || c = ';')))
      let compact := first.filter (fun c => c != ' ')
      if isCasePattern compact then some (String.mk compact) else none

/-- `re.match(r'^7[23]', s)`: the string begins with `72` or `73`. -/
def startsWith7x : List Char → Bool
  | a :: b :: _ => a = '7' && (b = '2' || b = '3')
  | _ => false

/-- The tail of `re.match(r'^\d{4}\.\d{2}\.?\d{0,4}$', s)` after the
mandatory `dddd.dd`: either nothing, or an optional dot followed by at
most four digits (the dot may also stand alone, and up to four digits may
follow without a dot — both match the regex). -/
def usaShapeTail : List Char → Bool
  | [] => true
  | r :: ds =>
      if r = '.' then ds.length ≤ 4 && ds.all Char.isDigit
      else (r :: ds).length ≤ 4 && (r :: ds).all Char.isDigit

/-- `re.match(r'^\d{4}\.\d{2}\.?\d{0,4}$', s)` as a whole-string test. -/
def usaShape : List Char → Bool
  | a :: b :: c :: d :: q :: e :: f :: rest =>
      a.isDigit && b.isDigit && c.isDigit && d.isDigit && q = '.' &&
      e.isDigit && f.isDigit && usaShapeTail rest
  | _ => false

/-- `validate_usa_hs_code` (`src/parsers/usa_parser.py` lines 12-35):
falsy or literal-"null" input → null; strip; reject any alphabetic
character; reject unless the code starts with `72`/`73`; reject unless it
matches the `dddd.dd[.dddd]` grouping; otherwise return the stripped
string unchanged. -/
def validate_usa_hs_code (hs_code : Option String) : Option String :=
  match hs_code with
  | none => none
  | some s =>
    if s = "" || s = "null" then none
    else
      let cs := pyStrip s.data
      if cs.any Char.isAlpha then none
      else if !(startsWith7x cs) then none
      else if !(usaShape cs) then none
      else some (String.mk cs)

/-! ## Expansion, deduplication and EU post-processing
(`src/parsers/usa_parser.py`, `australia_parser.py`, `eu_parser.py`) -/

/-- Python truthiness of an optional string: `None` and `""` are falsy. -/
def truthyStr : Option String → Bool
  | none => false
  | some s => s ≠ ""

/-- First-occurrence-wins collection by key: the behaviour both of the
`seen`-set loop of `_deduplicate_items` and of the insertion-ordered
Python dicts `unique_companies` / `country_company_info` that keep the
first item per key. -/
def dedupByKeyGo {κ : Type} [DecidableEq κ] (key : Item → κ) :
    List κ → List Item → List Item
  | _, [] => []
  | seen, it :: rest =>
      if key it ∈ seen then dedupByKeyGo key seen rest
      else it :: dedupByKeyGo key (key it :: seen) rest

def dedupByKey {κ : Type} [DecidableEq κ] (key : Item → κ)
    (items : List Item) : List Item :=
  dedupByKeyGo key [] items

/-- The duplicate-detection key of `USATextParser._deduplicate_items`
(`src/parsers/usa_parser.py` lines 186-193). -/
def dedupKey (it : Item) :
    Option String × Option String × Option String × Option String :=
  (it.hs_code, it.country, it.company, it.tariff_rate)

/-- `USATextParser._deduplicate_items` (`src/parsers/usa_parser.py`
lines 182-201). -/
def deduplicate_items (items : List Item) : List Item :=
  dedupByKey dedupKey items

/-- The (country, company, tariff_rate) template key of
`AustraliaTextParser.expand_hs_codes` (`src/parsers/australia_parser.py`
line 189). -/
def templateKey (it : Item) : Option String × Option String × Option String :=
  (it.country, it.company, it.tariff_rate)

/-- `AustraliaTextParser.expand_hs_codes`
(`src/parsers/australia_parser.py` lines 179-204): with no codes the
items pass through unchanged; otherwise, for each code (outer loop) and
each unique template (inner loop, first occurrence per key), emit the
template's copy with its `hs_code` replaced by the code. -/
def expand_hs_codes (items : List Item) (hs_codes : List String) : List Item :=
  if hs_codes.isEmpty then items
  else hs_codes.flatMap (fun code =>
    (dedupByKey templateKey items).map (fun t => { t with hs_code := some code }))

/-- The (country, company) key of `USATextParser.process`'s
`country_company_info` (`src/parsers/usa_parser.py` line 140) — note the
rate is NOT part of this key. -/
def usaInfoKey (it : Item) : Option String × Option String :=
  (it.country, it.company)

/-- The expansion step of `USATextParser.process`
(`src/parsers/usa_parser.py` lines 103-180), as a function of the
already-extracted LLM items and of the code set scanned from the PDF.
(The source iterates `sorted(all_hs_codes)`; the iteration order affects
only the order of the output and the parameter stands for that sorted
list.)  With no items the items pass through; with no codes every item's
code is set to null and the list deduplicated; otherwise items with a
falsy country are skipped, one info template is kept per (country,
company) — first occurrence wins — and one record per (code, template)
pair is emitted, carrying the template's fields and the code. -/
def usa_expand_items (items : List Item) (all_hs_codes : List String) : List Item :=
  if items.isEmpty then items
  else if all_hs_codes.isEmpty then
    deduplicate_items (items.map (fun it => { it with hs_code := none }))
  else
    (all_hs_codes.flatMap (fun code =>
      (dedupByKey usaInfoKey (items.filter (fun it => truthyStr it.country))).map
        (fun t => { t with hs_code := some code })))

/-- The HS-code validation step of `USATextParser.parse_response`
(`src/parsers/usa_parser.py` lines 207-216): every item's code is
replaced in place by its validated form (null on failure); no item is
removed by this step.  (A dict without an `hs_code` key skips the
validation; it is modelled by `hs_code = none`, on which validation is
the identity.) -/
def usaValidateCodes (items : List Item) : List Item :=
  items.map (fun it => { it with hs_code := validate_usa_hs_code it.hs_code })

/-- `USATextParser.parse_response` after the base JSON parse
(`src/parsers/usa_parser.py` lines 203-221): validate every code, then
deduplicate. -/
def usa_parse_response_post (items : List Item) : List Item :=
  deduplicate_items (usaValidateCodes items)

/-- `re.sub(r'^ex\s*', '', hs_str, flags=re.IGNORECASE)`
(`src/parsers/eu_parser.py` line 68). -/
def stripExMarker (cs : List Char) : List Char :=
  match cs with
  | e :: x :: rest =>
      if (e = 'e' || e = 'E') && (x = 'x' || x = 'X') then rest.dropWhile pyIsSpace
      else cs
  | _ => cs

/-- `EUTextParser.normalize_hs_code` (`src/parsers/eu_parser.py`
lines 59-79): falsy input → null; drop a leading `ex` marker; keep only
the digits; require exactly 8; format as `dddd.dd.dd`. -/
def normalize_hs_code (hs_code : Option String) : Option String :=
  match hs_code with
  | none => none
  | some s =>
    if s = "" then none
    else
      let digits := (stripExMarker s.data).filter Char.isDigit
      if digits.length == 8 then
        some (String.mk (digits.take 4 ++
          '.' :: ((digits.drop 4).take 2 ++ '.' :: (digits.drop 6).take 2)))
      else none

/-- The MIP-note step of `EUTextParser.post_process_items`
(`src/parsers/eu_parser.py` lines 97-99):
`if mip_info and not item.get('note')`. -/
def addMipNote (it : Item) (mip_info : Option String) : Item :=
  match mip_info with
  | some m =>
      if m ≠ "" && !(truthyStr it.note) then
        { it with note := some ("MIP: " ++ m) }
      else it
  | none => it

/-- `EUTextParser.post_process_items` (`src/parsers/eu_parser.py`
lines 81-103): an item whose truthy `hs_code` fails 8-digit
normalization is dropped entirely (`continue`); a successful one is kept
with the formatted code; a falsy code passes through untouched; kept
items receive the MIP note when their own note is falsy. -/
def post_process_items : List Item → Option String → List Item
  | [], _ => []
  | it :: rest, mip =>
      if truthyStr it.hs_code then
        match normalize_hs_code it.hs_code with
        | some n =>
            addMipNote { it with hs_code := some n } mip :: post_process_items rest mip
        | none => post_process_items rest mip
      else addMipNote it mip :: post_process_items rest mip

/-! ## JSON values and `json.loads`

`BaseCountryParser.parse_response` (`src/tariff_extractor_v3.py`
lines 249-363) repairs a raw payload and parses it with `json.loads`.
We model JSON values and a strict recursive-descent parser.  The numeric
grammar is restricted to integers (with the leading-zero rule) and the
string escapes to the single-character ones — the only forms the
modelled payloads use; other numeric or escape forms simply fail, as
invalid input does. -/

inductive Json where
  | null
  | bool (b : Bool)
  | num (n : Int)
  | str (s : String)
  | arr (xs : List Json)
  | obj (kvs : List (String × Json))

/-- The whitespace accepted between JSON tokens. -/
def jsonWs (c : Char) : Bool :=
  c = ' ' || c = '\t' || c = '\n' || c = '\r'

def skipWs (cs : List Char) : List Char := cs.dropWhile jsonWs

/-- Single-character string escapes. -/
def escChar (e : Char) : Option Char :=
  if e = '"' then some '"'
  else if e = '\\' then some '\\'
  else if e = '/' then some '/'
  else if e = 'n' then some '\n'
  else if e = 't' then some '\t'
  else if e = 'r' then some '\r'
  else if e = 'b' then some '\x08'
  else if e = 'f' then some '\x0c'
  else none

/-- Body of a JSON string, after the opening quote; `acc` holds the
consumed characters in reverse. -/
def parseStringAux : Nat → List Char → List Char → Option (String × List Char)
  | 0, _, _ => none
  | fuel + 1, acc, cs =>
      match cs with
      | [] => none
      | c :: rest =>
          if c = '"' then some (String.mk acc.reverse, rest)
          else if c = '\\' then
            match rest with
            | e :: rest2 =>
                match escChar e with
                | some ec => parseStringAux fuel (ec :: acc) rest2
                | none => none
            | [] => none
          else if c.toNat < 32 then none
          else parseStringAux fuel (c :: acc) rest

/-- An integer literal: optional minus, digits, no redundant leading
zero. -/
def parseNumber (cs : List Char) : Option (Int × List Char) :=
  let (neg, cs1) := match cs with
    | '-' :: rest => (true, rest)
    | _ => (false, cs)
  let digits := cs1.takeWhile Char.isDigit
  let rest := cs1.dropWhile Char.isDigit
  if digits.isEmpty then none
  else if digits.length > 1 && digits.head? = some '0' then none
  else
    let v : Int := digits.foldl (fun a c => a * 10 + (c.toNat - 48)) 0
    some (if neg then -v else v, rest)

mutual

def parseValue : Nat → List Char → Option (Json × List Char)
  | 0, _ => none
  | fuel + 1, cs =>
      match skipWs cs with
      | [] => none
      | c :: rest =>
          if c = '{' then
            match skipWs rest with
            | '}' :: rest2 => some (.obj [], rest2)
            | _ =>
                match parseMembers fuel rest with
                | some (kvs, rest2) => some (.obj kvs, rest2)
                | none => none
          else if c = '[' then
            match skipWs rest with
            | ']' :: rest2 => some (.arr [], rest2)
            | _ =>
                match parseElements fuel rest with
                | some (xs, rest2) => some (.arr xs, rest2)
                | none => none
          else if c = '"' then
            match parseStringAux (rest.length + 1) [] rest with
            | some (s, rest2) => some (.str s, rest2)
            | none => none
          else if c = 't' then
            match rest with
            | 'r' :: 'u' :: 'e' :: rest2 => some (.bool true, rest2)
            | _ => none
          else if c = 'f' then
            match rest with
            | 'a' :: 'l' :: 's' :: 'e' :: rest2 => some (.bool false, rest2)
            | _ => none
          else if c = 'n' then
            match rest with
            | 'u' :: 'l' :: 'l' :: rest2 => some (.null, rest2)
            | _ => none
          else if c = '-' || c.isDigit then
            match parseNumber (c :: rest) with
            | some (v, rest2) => some (.num v, rest2)
            | none => none
          else none

def parseMembers : Nat → List Char → Option (List (String × Json) × List Char)
  | 0, _ => none
  | fuel + 1, cs =>
      match skipWs cs with
      | '"' :: rest =>
          match parseStringAux (rest.length + 1) [] rest with
          | some (k, rest2) =>
              (match skipWs rest2 with
                | ':' :: rest3 =>
                    match parseValue fuel rest3 with
                    | some (v, rest4) =>
                        (match skipWs rest4 with
                          | ',' :: rest5 =>
                              match parseMembers fuel rest5 with
                              | some (kvs, rest6) => some ((k, v) :: kvs, rest6)
                              | none => none
                          | '}' :: rest5 => some ([(k, v)], rest5)
                          | _ => none)
                    | none => none
                | _ => none)
          | none => none
      | _ => none

def parseElements : Nat → List Char → Option (List Json × List Char)
  | 0, _ => none
  | fuel + 1, cs =>
      match parseValue fuel cs with
      | some (v, rest) =>
          (match skipWs rest with
            | ',' :: rest2 =>
                match parseElements fuel rest2 with
                | some (xs, rest3) => some (v :: xs, rest3)
                | none => none
            | ']' :: rest2 => some ([v], rest2)
            | _ => none)
      | none => none

end

/-- `json.loads`: parse one value and require only whitespace after it. -/
def Json.parse (s : String) : Option Json :=
  match parseValue (2 * s.data.length + 2) s.data with
  | some (v, rest) => if skipWs rest = [] then some v else none
  | none => none

/-! ## The `parse_response` repair pipeline
(`src/tariff_extractor_v3.py` lines 249-363) -/

/-- Does `needle` occur at the head of `cs`? -/
def startsWithSeq : List Char → List Char → Bool
  | [], _ => true
  | _ :: _, [] => false
  | n :: ns, c :: cs => n = c && startsWithSeq ns cs

/-- Does `needle` occur anywhere in `cs` (Python `in`)? -/
def containsSeq (needle : List Char) : List Char → Bool
  | [] => startsWithSeq needle []
  | c :: rest => startsWithSeq needle (c :: rest) || containsSeq needle rest

/-- Earliest index at which `needle` occurs. -/
def findSeqIdx (needle : List Char) : List Char → Option Nat
  | [] => if startsWithSeq needle [] then some 0 else none
  | c :: rest =>
      if startsWithSeq needle (c :: rest) then some 0
      else match findSeqIdx needle rest with
        | some k => some (k + 1)
        | none => none

/-- Index of the last occurrence of a character (Python `str.rfind`). -/
def lastIdxOf (c : Char) (cs : List Char) : Option Nat :=
  if c ∈ cs then some (cs.length - 1 - cs.reverse.findIdx (fun x => x = c))
  else none

/-- `\s*\n` with the greedy-then-backtrack semantics of the regex
engine: consume up to (and including) the LAST newline of the leading
whitespace run, failing when that run has none. -/
def wsNewlineMatch (cs : List Char) : Option (List Char) :=
  let run := cs.takeWhile pyIsSpace
  match lastIdxOf '\n' run with
  | some i => some (cs.drop (i + 1))
  | none => none

/-- One attempt of `re.search(r'```(?:json)?\s*\n(.*?)\n```', ...)` at
the current position: literal backticks, an optional `json`, `\s*\n`,
then the non-greedy capture up to the earliest `\n```(backticks)`. -/
def tryCodeBlockAt (cs : List Char) : Option (List Char) :=
  if startsWithSeq ("```").data cs then
    let afterTicks := cs.drop 3
    let afterJson := if startsWithSeq ("json").data afterTicks then
        afterTicks.drop 4 else afterTicks
    match wsNewlineMatch afterJson with
    | some afterNl =>
        match findSeqIdx ("\n```").data afterNl with
        | some k => some (afterNl.take k)
        | none => none
    | none => none
  else none

/-- Leftmost-match search for the code-block pattern. -/
def codeBlockSearch : List Char → Option (List Char)
  | [] => none
  | c :: rest =>
      match tryCodeBlockAt (c :: rest) with
      | some r => some r
      | none => codeBlockSearch rest

/-- One attempt of `re.search(r'"items"\s*:\s*\[(.*)\]', ..., DOTALL)`
at the current position: the literal key, optional whitespace, colon,
optional whitespace, `[`, then the GREEDY capture up to the last `]`. -/
def tryItemsAt (cs : List Char) : Option (List Char) :=
  if startsWithSeq ("\"items\"").data cs then
    match (cs.drop 7).dropWhile pyIsSpace with
    | ':' :: r2 =>
        (match r2.dropWhile pyIsSpace with
          | '[' :: r4 =>
              match lastIdxOf ']' r4 with
              | some j => some (r4.take j)
              | none => none
          | _ => none)
    | _ => none
  else none

/-- Leftmost-match search for the items pattern. -/
def itemsSearch : List Char → Option (List Char)
  | [] => none
  | c :: rest =>
      match tryItemsAt (c :: rest) with
      | some r => some r
      | none => itemsSearch rest

/-- Is the next non-whitespace character a closing brace or bracket? -/
def wsThenClose (cs : List Char) : Bool :=
  match cs.dropWhile pyIsSpace with
  | c :: _ => c = '\x7d' || c = ']'
  | [] => false

/-- `re.sub(r',(\s*[}\]])', r'\1', response)`: every comma directly
followed by optional whitespace and a closing brace/bracket is deleted
(the whitespace and the bracket are kept).  Since a match never contains
a comma, the sequential-replacement semantics coincides with this
per-comma test. -/
def subCommaClose : List Char → List Char
  | [] => []
  | c :: rest =>
      if c = ',' && wsThenClose rest then subCommaClose rest
      else c :: subCommaClose rest

/-- `current_item.strip().rstrip(',')`'s final step: strip trailing
commas. -/
def rstripCommas (cs : List Char) : List Char :=
  cs.rdropWhile (fun c => c = ',')

/-- The state of the structural-recovery scan (`src/tariff_extractor_v3.py`
lines 316-351): nesting depth (a Python int — it may go negative),
the accumulated span, string/escape state, and the recovered objects
(the loop's accumulator list of recovered records). -/
structure ScanState where
  depth : Int
  current_item : List Char
  in_string : Bool
  escape_next : Bool
  found_items : List Json

def scanInit : ScanState := ⟨0, [], false, false, []⟩

/-- One iteration of the recovery loop (`for char in items_str`,
`src/tariff_extractor_v3.py` lines 321-351).  On a successful parse of
the accumulated span the span resets; on a failed parse it is RETAINED
(the `except: pass`). -/
def scanStep (st : ScanState) (char : Char) : ScanState :=
  if st.escape_next then
    { st with current_item := st.current_item ++ [char], escape_next := false }
  else if char = '\\' then
    { st with escape_next := true, current_item := st.current_item ++ [char] }
  else
    let st1 := if char = '"' then { st with in_string := !st.in_string } else st
    let st2 := if !st1.in_string then
        (if char = '\x7b' then { st1 with depth := st1.depth + 1 }
         else if char = '\x7d' then { st1 with depth := st1.depth - 1 }
         else st1)
      else st1
    let st3 := { st2 with current_item := st2.current_item ++ [char] }
    if st3.depth = 0 && (pyStrip st3.current_item).getLast? = some '\x7d' then
      match Json.parse (String.mk (rstripCommas (pyStrip st3.current_item))) with
      | some item =>
          { st3 with found_items := st3.found_items ++ [item],
                     current_item := [] }
      | none => st3
    else st3

/-- The `in_string` toggle of the recovery loop (`if char == '"' ...:
in_string = not in_string`, `src/tariff_extractor_v3.py` lines 332-333)
traced over a backslash-free character stream: each quote flips the
flag.  Used to state quote-balancedness of a span body. -/
def quoteFlip (b : Bool) (cs : List Char) : Bool :=
  cs.foldl (fun acc c => if c = '"' then !acc else acc) b

/-- The structural-recovery pass over the captured items content. -/
def recoverItems (items_str : List Char) : List Json :=
  (items_str.foldl scanStep scanInit).found_items

/-- `BaseCountryParser.parse_response` (`src/tariff_extractor_v3.py`
lines 249-363).  Steps, in source order: empty → `[]`; strip control
characters; handle a ``` code block (regex first, then the brace-slice
fallback); strip, and cut from the first `\x7b` when the text does not
start with one; delete commas before closers; append the missing
closers counted from openers; `json.loads`; on success take the object's
`items` list (`data.get('items', [])`); on a parse error run the
structural recovery over the regex-captured items content.  `none`
models the Python paths that raise out of the function: `json.loads`
yielding a non-dict (whose `.get` raises `AttributeError`, not caught by
`except json.JSONDecodeError`), and — outside the modelled domain — a
dict whose `items` key holds a non-list. -/
def parse_response (response : String) : Option (List Json) :=
  if response = "" then some []
  else
    let cs0 := response.data.filter
      (fun c => 32 ≤ c.toNat || c = '\n' || c = '\t' || c = '\r')
    let cs1 := if containsSeq ("```").data cs0 then
        match codeBlockSearch cs0 with
        | some captured => captured
        | none =>
            if ('\x7b' ∈ cs0) && ('\x7d' ∈ cs0) then
              let i := cs0.findIdx (fun c => c = '\x7b')
              let j := cs0.length - 1 - cs0.reverse.findIdx (fun c => c = '\x7d')
              (cs0.drop i).take (j + 1 - i)
            else cs0
      else cs0
    let cs2 := pyStrip cs1
    let cs3 := match cs2 with
      | '\x7b' :: _ => cs2
      | _ => if '\x7b' ∈ cs2 then cs2.dropWhile (fun c => !(c = '\x7b')) else cs2
    let cs4 := subCommaClose cs3
    let cs5 :=
      if (cs4.rdropWhile pyIsSpace).getLast? = some '\x7d' then cs4
      else
        let ob := cs4.count '\x7b'
        let cb := cs4.count '\x7d'
        let obr := cs4.count '['
        let cbr := cs4.count ']'
        let cs4a := if cbr < obr then cs4 ++ List.replicate (obr - cbr) ']' else cs4
        (if cb < ob then cs4a ++ List.replicate (ob - cb) '\x7d' else cs4a)
    match Json.parse (String.mk cs5) with
    | some (.obj kvs) =>
        match (kvs.find? (fun kv => kv.1 = "items")).map Prod.snd with
        | none => some []
        | some (.arr xs) => some xs
        | some _ => none
    | some _ => none
    | none =>
        match itemsSearch cs5 with
        | some items_str => some (recoverItems items_str)
        | none => some []

/-! ## Concrete fixtures used by witnesses and counterexamples -/

/-- A fully-identified record: Korean exporter of one steel product. -/
def itemKorea : Item :=
  ⟨some "Korea", some "Acme Steel", some "7210.49.11", some "A-580-881",
   some "Antidumping", some "5.5", none, none, none, none, none, none, none⟩

/-- The same identity tuple as `itemKorea`, but bringing only a note. -/
def itemKoreaNote : Item :=
  { itemKorea with tariff_type := none, tariff_rate := none, note := some "Final Results" }

/-- One persisted document (doc 5) holding `itemKorea`. -/
def dbOneRow : DB := ⟨[⟨1, 5, some "United States", itemKorea⟩], 2⟩

/-- An empty fact table. -/
def dbEmpty : DB := ⟨[], 0⟩

/-- Document A's persisted fact: same identity as `itemKorea` but with a
null classification code — the preliminary determination missing its code
list (spec scenario 3). -/
def itemCaseA : Item := { itemKorea with hs_code := none }

/-- Document B's fact for the same case `A-580-881`: matching identity
tuple, non-null code. -/
def itemCaseB : Item := itemKorea

/-- Document 1 already persisted with the code-less fact `itemCaseA`. -/
def dbCaseA : DB := ⟨[⟨1, 1, none, itemCaseA⟩], 2⟩

/-- An affected-party record with no code: rate 5.0. -/
def itemRateA : Item :=
  ⟨some "China", some "Baosteel", none, none, some "Antidumping", some "5.0",
   none, none, none, none, none, none, none⟩

/-- The same country/company as `itemRateA` but a different rate, so the
two are distinct templates under (country, company, rate) yet collapse
under (country, company). -/
def itemRateB : Item := { itemRateA with tariff_rate := some "7.0" }

/-- A record whose classification code fails validation everywhere. -/
def itemBadCode : Item := { itemRateA with hs_code := some "123" }

/-- A payload whose items list holds two top-level object spans that
parse in isolation, interleaved with one unparseable span, and whose
strict parse fails (trailing junk makes the repaired payload invalid). -/
def responseC6 : String :=
  "\x7b\"items\": [\x7b\"a\": 1\x7d, \x7bbad\x7d, \x7b\"b\": 2\x7d] x"

/-- The record carried by the first valid span of `responseC6`. -/
def jsonA : Json := Json.obj [("a", Json.num 1)]

/-! ### Lemmas about the staged-update machinery -/

theorem item_ext {a b : Item} (h : ∀ f, fieldGet f a = fieldGet f b) : a = b := by
  cases a; cases b
  have h1 := h .tariff_type
  have h2 := h .tariff_rate
  have h3 := h .effective_date_from
  have h4 := h .effective_date_to
  have h5 := h .investigation_period_from
  have h6 := h .investigation_period_to
  have h7 := h .basis_law
  have h8 := h .product_description
  have h9 := h .note
  have h10 := h .country
  have h11 := h .company
  have h12 := h .hs_code
  have h13 := h .case_number
  simp only [fieldGet] at *
  subst h1 h2 h3 h4 h5 h6 h7 h8 h9 h10 h11 h12 h13
  rfl

theorem fieldGet_fieldSet (f g : FieldName) (v : Option String) (it : Item) :
    fieldGet f (fieldSet g v it) = if f = g then v else fieldGet f it := by
  cases f <;> cases g <;> simp [fieldGet, fieldSet]

theorem mem_fields_to_check {item : Item} {f : FieldName} {v : Option String} :
    (f, v) ∈ fields_to_check item ↔ v = fieldGet f item := by
  cases f <;> simp [fields_to_check, fieldGet]

theorem applyUpdates_not_mem (it : Item) (ups : List (FieldName × Option String))
    (f : FieldName) (h : ∀ v, (f, v) ∉ ups) :
    fieldGet f (applyUpdates it ups) = fieldGet f it := by
  induction ups generalizing it with
  | nil => rfl
  | cons u rest ih =>
      have hne : f ≠ u.1 := by
        intro he
        refine h u.2 ?_
        rw [he, Prod.mk.eta]
        exact List.mem_cons_self _ _
      simp only [applyUpdates, List.foldl_cons] at *
      rw [ih (fieldSet u.1 u.2 it) (fun v hv => h v (List.mem_cons_of_mem _ hv))]
      rw [fieldGet_fieldSet, if_neg hne]

theorem applyUpdates_mem (it : Item) (ups : List (FieldName × Option String))
    (f : FieldName) (v : Option String)
    (hnd : (ups.map Prod.fst).Nodup) (hm : (f, v) ∈ ups) :
    fieldGet f (applyUpdates it ups) = v := by
  induction ups generalizing it with
  | nil => simp at hm
  | cons u rest ih =>
      simp only [List.map_cons, List.nodup_cons] at hnd
      rcases List.mem_cons.mp hm with he | hrest
      · subst he
        simp only [applyUpdates, List.foldl_cons]
        have hnr : ∀ w, (f, w) ∉ rest := by
          intro w hw
          exact hnd.1 (List.mem_map.mpr ⟨(f, w), hw, rfl⟩)
        have := applyUpdates_not_mem (fieldSet f v it) rest f hnr
        simp only [applyUpdates] at this
        rw [this, fieldGet_fieldSet, if_pos rfl]

      · simp only [applyUpdates, List.foldl_cons]
        exact ih (fieldSet u.1 u.2 it) hnd.2 hrest

theorem fields_to_check_keys_nodup (item : Item) :
    ((fields_to_check item).map Prod.fst).Nodup := by
  simp [fields_to_check]

/-- The staged updates of a merge apply pointwise null-filling: after the
UPDATE, every field of the existing record equals `mergeField old new`. -/
theorem applyUpdates_filter_eq_merge (old new : Item) (f : FieldName) :
    fieldGet f (applyUpdates old ((fields_to_check new).filter
      (fun fv => fieldGet fv.1 old == none && fv.2 != none))) =
    mergeField (fieldGet f old) (fieldGet f new) := by
  set ups := (fields_to_check new).filter
      (fun fv => fieldGet fv.1 old == none && fv.2 != none) with hups
  have hnd : (ups.map Prod.fst).Nodup :=
    ((fields_to_check_keys_nodup new).sublist
      (List.Sublist.map Prod.fst (List.filter_sublist _)))
  by_cases hc : fieldGet f old = none ∧ fieldGet f new ≠ none
  · have hmem : (f, fieldGet f new) ∈ ups := by
      rw [hups, List.mem_filter]
      refine ⟨mem_fields_to_check.mpr rfl, ?_⟩
      simp [hc.1, hc.2]
    rw [applyUpdates_mem _ _ _ _ hnd hmem, hc.1, mergeField]
  · have hnmem : ∀ v, (f, v) ∉ ups := by
      intro v hv
      rw [hups, List.mem_filter] at hv
      have hveq : v = fieldGet f new := mem_fields_to_check.mp hv.1
      have := hv.2
      simp only [Bool.and_eq_true, beq_iff_eq, bne_iff_ne, ne_eq] at this
      exact hc ⟨this.1, hveq ▸ this.2⟩
    rw [applyUpdates_not_mem _ _ _ hnmem]
    rcases ho : fieldGet f old with _ | w
    · rcases hn : fieldGet f new with _ | u
      · simp [mergeField]
      · exact absurd ⟨ho, by simp [hn]⟩ hc
    · simp [mergeField]

/-- No update is staged exactly when pointwise merging changes nothing. -/
theorem updates_empty_iff_merge_id (old new : Item) :
    ((fields_to_check new).filter
      (fun fv => fieldGet fv.1 old == none && fv.2 != none)).isEmpty = true ↔
    mergeItem old new = old := by
  rw [List.isEmpty_iff, List.filter_eq_nil_iff]
  constructor
  · intro h
    apply item_ext
    intro f
    have hm : fieldGet f (mergeItem old new) = mergeField (fieldGet f old) (fieldGet f new) := by
      cases f <;> rfl
    rw [hm]
    rcases ho : fieldGet f old with _ | w
    · rcases hn : fieldGet f new with _ | u
      · simp [mergeField]
      · exfalso
        have := h (f, fieldGet f new) (mem_fields_to_check.mpr rfl)
        simp [ho, hn] at this
    · simp [mergeField]
  · intro h fv hfv
    have hveq : fv.2 = fieldGet fv.1 new := by
      rcases fv with ⟨f, v⟩
      exact mem_fields_to_check.mp hfv
    have hm : fieldGet fv.1 (mergeItem old new) =
        mergeField (fieldGet fv.1 old) (fieldGet fv.1 new) := by
      cases fv.1 <;> rfl
    rw [h] at hm
    rcases ho : fieldGet fv.1 old with _ | w
    · rw [ho] at hm
      simp only [mergeField] at hm
      simp [hveq, ← hm]
    · simp [ho]

/-! ## Claim C1 — the no-overwrite invariant of the merge -/

/-- C1.  No-overwrite invariant of `upsert_or_merge_tariff_item`: for every
persisted row (under the primary-key invariant that `tariff_id`s are
distinct), the call leaves the row in place — same `tariff_id`, `doc_id`
and `issuing_country` — and every field that was non-null before the call
still holds the same value afterwards; only null fields can change. -/
theorem C1_no_overwrite (db : DB) (doc_id : Nat) (item : Item)
    (ic : Option String) (i : Nat) (row : TariffRow)
    (hnd : (db.rows.map TariffRow.tariff_id).Nodup)
    (hi : db.rows[i]? = some row) :
    ∃ row' : TariffRow,
      (upsert_or_merge_tariff_item db doc_id item ic).1.rows[i]? = some row' ∧
      row'.tariff_id = row.tariff_id ∧
      row'.doc_id = row.doc_id ∧
      row'.issuing_country = row.issuing_country ∧
      ∀ f v, fieldGet f row.fields = some v → fieldGet f row'.fields = some v := by
  have hlen : i < db.rows.length := (List.getElem?_eq_some.mp hi).1
  unfold upsert_or_merge_tariff_item
  rcases hf : db.rows.find? (fun r => r.doc_id == doc_id && identMatch r item) with _ | existing
  · -- no matching row: INSERT appends, leaving index `i` untouched
    simp only [hf]
    refine ⟨row, ?_, rfl, rfl, rfl, fun f v hv => hv⟩
    rw [List.getElem?_append_left hlen]
    exact hi
  · -- a matching row exists
    have hmem : existing ∈ db.rows := List.mem_of_find?_eq_some hf
    simp only [hf]
    by_cases hemp : ((fields_to_check item).filter
        (fun fv => fieldGet fv.1 existing.fields == none && fv.2 != none)).isEmpty = true
    · rw [if_pos hemp]
      exact ⟨row, hi, rfl, rfl, rfl, fun f v hv => hv⟩
    · rw [if_neg hemp]
      have hrowmem : row ∈ db.rows := List.getElem?_mem hi
      simp only [List.getElem?_map, hi, Option.map_some']
      by_cases hid : (row.tariff_id == existing.tariff_id) = true
      · have heq : row = existing := List.inj_on_of_nodup_map hnd hrowmem hmem (by simpa using hid)
        rw [if_pos hid]
        refine ⟨_, rfl, rfl, rfl, rfl, ?_⟩
        intro f v hv
        subst heq
        rw [applyUpdates_filter_eq_merge row.fields item f, hv]
        rfl
      · rw [if_neg hid]
        exact ⟨row, rfl, rfl, rfl, rfl, fun f v hv => hv⟩

/-- Witness for C1: merging `itemKoreaNote` into the persisted `dbOneRow`
satisfies the hypotheses, and the invariant holds there. -/
theorem C1_no_overwrite_witness :
    (dbOneRow.rows.map TariffRow.tariff_id).Nodup ∧
    dbOneRow.rows[0]? = some ⟨1, 5, some "United States", itemKorea⟩ ∧
    ∃ row' : TariffRow,
      (upsert_or_merge_tariff_item dbOneRow 5 itemKoreaNote none).1.rows[0]? = some row' ∧
      row'.tariff_id = (1 : Nat) ∧
      row'.doc_id = (5 : Nat) ∧
      row'.issuing_country = some "United States" ∧
      ∀ f v, fieldGet f itemKorea = some v → fieldGet f row'.fields = some v :=
  ⟨by decide, by decide,
    C1_no_overwrite dbOneRow 5 itemKoreaNote none 0
      ⟨1, 5, some "United States", itemKorea⟩ (by decide) (by decide)⟩

/-! ## Claim C2 — the merge contract -/

/-- C2 counterexample.  The claim says the merge reports the string
value `unchanged` when no field was staged; the code returns the string
`skipped` there (`src/database.py` line 204, docstring line 139).
Re-submitting the already-persisted `itemKorea` stages nothing, and the
reported outcome differs from the claimed one. -/
theorem C2_counterexample :
    (upsert_or_merge_tariff_item dbOneRow 5 itemKorea none).2 = "skipped" ∧
    (upsert_or_merge_tariff_item dbOneRow 5 itemKorea none).2 ≠ "unchanged" := by
  constructor
  · rfl
  · decide

/-- C2 (amended).  Full contract of `upsert_or_merge_tariff_item` under
the primary-key invariant: the identity match treats "both null" as equal
per position; on no match the item is inserted (with the document's
`issuing_country`) and the call reports "inserted"; on a match, the
existing row is null-filled pointwise from the item — identity-tuple
fields included — and the call reports "merged" when at least one field
was staged and "skipped" (the code's label for the no-change outcome)
when none was. -/
theorem C2_merge_contract (db : DB) (doc_id : Nat) (item : Item)
    (ic : Option String)
    (hnd : (db.rows.map TariffRow.tariff_id).Nodup) :
    (∀ row : TariffRow, identMatch row item = true ↔
      (row.fields.country = item.country ∧ row.fields.company = item.company ∧
       row.fields.hs_code = item.hs_code ∧ row.fields.case_number = item.case_number)) ∧
    (db.rows.find? (fun r => r.doc_id == doc_id && identMatch r item) = none →
      upsert_or_merge_tariff_item db doc_id item ic =
        ({ rows := db.rows ++ [⟨db.next_id, doc_id, ic, item⟩],
           next_id := db.next_id + 1 }, "inserted")) ∧
    (∀ existing,
      db.rows.find? (fun r => r.doc_id == doc_id && identMatch r item) = some existing →
      (mergeItem existing.fields item = existing.fields →
        upsert_or_merge_tariff_item db doc_id item ic = (db, "skipped")) ∧
      (mergeItem existing.fields item ≠ existing.fields →
        upsert_or_merge_tariff_item db doc_id item ic =
          ({ db with rows := db.rows.map (fun r =>
              if r.tariff_id == existing.tariff_id then
                { r with fields := mergeItem existing.fields item }
              else r) }, "merged"))) := by
  refine ⟨?_, ?_, ?_⟩
  · intro row
    simp [identMatch, and_assoc]
  · intro hnone
    unfold upsert_or_merge_tariff_item
    rw [hnone]
  · intro existing hsome
    have hmem : existing ∈ db.rows := List.mem_of_find?_eq_some hsome
    constructor
    · intro hid
      unfold upsert_or_merge_tariff_item
      rw [hsome]
      simp only [(updates_empty_iff_merge_id existing.fields item).mpr hid, if_pos]
    · intro hne
      have hemp : ¬ ((fields_to_check item).filter
          (fun fv => fieldGet fv.1 existing.fields == none && fv.2 != none)).isEmpty = true := by
        intro h
        exact hne ((updates_empty_iff_merge_id existing.fields item).mp h)
      unfold upsert_or_merge_tariff_item
      rw [hsome]
      simp only [hemp, if_neg, Bool.false_eq_true, not_false_eq_true]
      refine congrArg (fun rs => (DB.mk rs db.next_id, "merged")) ?_
      apply List.map_congr_left
      intro r hr
      by_cases hid : (r.tariff_id == existing.tariff_id) = true
      · have : r = existing := List.inj_on_of_nodup_map hnd hr hmem (by simpa using hid)
        subst this
        simp only [hid, if_pos]
        congr 1
        apply item_ext
        intro f
        rw [applyUpdates_filter_eq_merge r.fields item f]
        cases f <;> rfl
      · simp [hid]

/-- Witness for C2 (amended): on `dbOneRow` the match is found and the
note-only record merges; the contract instantiates concretely. -/
theorem C2_merge_contract_witness :
    (dbOneRow.rows.map TariffRow.tariff_id).Nodup ∧
    (dbOneRow.rows.find?
      (fun r => r.doc_id == 5 && identMatch r itemKoreaNote) = some ⟨1, 5, some "United States", itemKorea⟩) ∧
    mergeItem itemKorea itemKoreaNote ≠ itemKorea ∧
    upsert_or_merge_tariff_item dbOneRow 5 itemKoreaNote none =
      ({ dbOneRow with rows := dbOneRow.rows.map (fun r =>
          if r.tariff_id == (1 : Nat) then
            { r with fields := mergeItem itemKorea itemKoreaNote }
          else r) }, "merged") :=
  ⟨by decide, by decide, by decide,
    ((C2_merge_contract dbOneRow 5 itemKoreaNote none (by decide)).2.2
      ⟨1, 5, some "United States", itemKorea⟩ (by decide)).2 (by decide)⟩

/-! ## Claims C3 and C4 — document processing has no back-fill and always
replaces -/

/-- Structure of the persistence step: the surviving rows are exactly the
other documents' rows (unchanged, in order), followed by fresh rows
carrying the extracted items. -/
theorem process_single_pdf_persist_rows (db : DB) (doc_id : Nat)
    (items : List Item) (ic : Option String) :
    ∃ fresh : List TariffRow,
      (process_single_pdf_persist db doc_id items ic).rows =
        db.rows.filter (fun r => r.doc_id != doc_id) ++ fresh ∧
      fresh.map TariffRow.fields = items ∧
      ∀ r ∈ fresh, r.doc_id = doc_id ∧ r.issuing_country = ic := by
  suffices h : ∀ s : DB, ∃ fresh : List TariffRow,
      (items.foldl (fun d it => insert_tariff_item d doc_id it ic) s).rows =
        s.rows ++ fresh ∧ fresh.map TariffRow.fields = items ∧
      ∀ r ∈ fresh, r.doc_id = doc_id ∧ r.issuing_country = ic by
    obtain ⟨fresh, h1, h2, h3⟩ := h (delete_tariff_items_by_doc db doc_id)
    exact ⟨fresh, h1, h2, h3⟩
  induction items with
  | nil => exact fun s => ⟨[], by simp, rfl, by simp⟩
  | cons it rest ih =>
      intro s
      obtain ⟨fresh, h1, h2, h3⟩ := ih (insert_tariff_item s doc_id it ic)
      refine ⟨⟨s.next_id, doc_id, ic, it⟩ :: fresh, ?_, ?_, ?_⟩
      · simpa [insert_tariff_item] using h1
      · simpa using h2
      · intro r hr
        rcases List.mem_cons.mp hr with he | hm
        · subst he; exact ⟨rfl, rfl⟩
        · exact h3 r hm

/-- C3 counterexample.  Document 1 holds a fact for case `A-580-881` with
a null classification code; processing document 2, whose extracted fact
has the same identity tuple, the same case number and the non-null code
`7210.49.11`, leaves document 1's fact with a null code — no
grouping-key-scoped second pass fills it (none exists in the code), and
even the (never-called) merge helper, being scoped to the *owning
document*, leaves it null too. -/
theorem C3_counterexample :
    itemCaseB.case_number = some "A-580-881" ∧
    itemCaseA.case_number = some "A-580-881" ∧
    itemCaseB.hs_code = some "7210.49.11" ∧
    itemCaseA.hs_code = none ∧
    docFields (process_single_pdf_persist dbCaseA 2 [itemCaseB] none) 1 = [itemCaseA] ∧
    docFields (upsert_or_merge_tariff_item dbCaseA 2 itemCaseB none).1 1 = [itemCaseA] := by
  refine ⟨rfl, rfl, rfl, rfl, ?_, ?_⟩ <;> decide

/-- C3 (amended).  No grouping-key back-fill pass exists: processing a
document touches only that document's rows.  Every row of a *different*
document — in particular every sibling document of the same legal case —
survives byte-for-byte unchanged, null fields included, and conversely no
foreign row is created. -/
theorem C3_no_backfill (db : DB) (doc_id : Nat) (items : List Item)
    (ic : Option String) :
    (∀ row ∈ db.rows, row.doc_id ≠ doc_id →
      row ∈ (process_single_pdf_persist db doc_id items ic).rows) ∧
    (∀ row ∈ (process_single_pdf_persist db doc_id items ic).rows,
      row.doc_id ≠ doc_id → row ∈ db.rows) := by
  obtain ⟨fresh, h1, _, h3⟩ := process_single_pdf_persist_rows db doc_id items ic
  constructor
  · intro row hrow hne
    rw [h1]
    exact List.mem_append_left _ (List.mem_filter.mpr ⟨hrow, by simpa using hne⟩)
  · intro row hrow hne
    rw [h1] at hrow
    rcases List.mem_append.mp hrow with hl | hr
    · exact (List.mem_filter.mp hl).1
    · exact absurd ((h3 row hr).1) hne

/-- Witness for C3 (amended): document 1's code-less fact survives the
processing of document 2 unchanged. -/
theorem C3_no_backfill_witness :
    (⟨1, 1, none, itemCaseA⟩ : TariffRow) ∈ dbCaseA.rows ∧ (1 : Nat) ≠ 2 ∧
    (⟨1, 1, none, itemCaseA⟩ : TariffRow) ∈
      (process_single_pdf_persist dbCaseA 2 [itemCaseB] none).rows :=
  ⟨by decide, by decide,
    (C3_no_backfill dbCaseA 2 [itemCaseB] none).1 ⟨1, 1, none, itemCaseA⟩
      (by decide) (by decide)⟩

/-- C4 counterexample.  The claim says a second run with an identical
batch reports every record `unchanged` with zero insertions, and that a
document's facts are replaced only on explicit request.  The code always
replaces: reprocessing document 1 with the identical single-item batch
deletes the persisted row (id 0) and inserts a fresh one (id 1) — one
insertion and no per-record merge outcome at all. -/
theorem C4_counterexample :
    (process_single_pdf_persist dbEmpty 1 [itemKorea] none).rows =
      [⟨0, 1, none, itemKorea⟩] ∧
    (process_single_pdf_persist (process_single_pdf_persist dbEmpty 1 [itemKorea] none)
        1 [itemKorea] none).rows = [⟨1, 1, none, itemKorea⟩] ∧
    (⟨0, 1, none, itemKorea⟩ : TariffRow) ∉
      (process_single_pdf_persist (process_single_pdf_persist dbEmpty 1 [itemKorea] none)
        1 [itemKorea] none).rows := by
  refine ⟨?_, ?_, ?_⟩ <;> decide

/-- C4 (amended).  Reprocessing always performs full replacement
(deletion followed by reinsertion) without any explicit request, but the
replacement is value-idempotent: after any run the document's persisted
field values are exactly the extracted batch, so a second run with an
identical batch leaves every persisted field value of the document
unchanged (only row ids differ). -/
theorem C4_reprocess_value_stable (db : DB) (doc_id : Nat)
    (items : List Item) (ic : Option String) :
    docFields (process_single_pdf_persist db doc_id items ic) doc_id = items ∧
    docFields (process_single_pdf_persist
        (process_single_pdf_persist db doc_id items ic) doc_id items ic) doc_id =
      docFields (process_single_pdf_persist db doc_id items ic) doc_id := by
  have key : ∀ d : DB, docFields (process_single_pdf_persist d doc_id items ic) doc_id = items := by
    intro d
    obtain ⟨fresh, h1, h2, h3⟩ := process_single_pdf_persist_rows d doc_id items ic
    unfold docFields
    rw [h1, List.filter_append]
    have hleft : (d.rows.filter (fun r => r.doc_id != doc_id)).filter
        (fun r => r.doc_id == doc_id) = [] := by
      rw [List.filter_filter]
      apply List.filter_eq_nil_iff.mpr
      intro r _
      simp only [Bool.and_eq_true, bne_iff_ne, ne_eq, beq_iff_eq]
      rintro ⟨h1, h2⟩
      exact absurd h1 h2
    have hright : fresh.filter (fun r => r.doc_id == doc_id) = fresh := by
      apply List.filter_eq_self.mpr
      intro r hr
      simpa using (h3 r hr).1
    rw [hleft, hright, List.nil_append, h2]
  exact ⟨key db, by rw [key db, key (process_single_pdf_persist db doc_id items ic)]⟩

/-! ## String-normalizer lemmas -/

theorem map_eq_self_of (f : Char → Char) (l : List Char) (h : ∀ c ∈ l, f c = c) :
    l.map f = l := by
  induction l with
  | nil => rfl
  | cons c rest ih =>
      simp only [List.map_cons, h c (List.mem_cons_self c rest)]
      rw [ih (fun x hx => h x (List.mem_cons_of_mem _ hx))]

theorem dropWhile_eq_drop_aux (p : Char → Bool) (l : List Char) :
    l.dropWhile p = l.drop (l.takeWhile p).length := by
  induction l with
  | nil => rfl
  | cons c rest ih =>
      by_cases hc : p c = true
      · simp [List.dropWhile_cons, List.takeWhile_cons, hc, ih]
      · simp [List.dropWhile_cons, List.takeWhile_cons, hc]

theorem pyStrip_eq_self (cs : List Char) (h : ∀ c ∈ cs, pyIsSpace c = false) :
    pyStrip cs = cs := by
  unfold pyStrip
  have hr : cs.rdropWhile pyIsSpace = cs :=
    List.rdropWhile_eq_self_iff.mpr (fun hl => by simp [h _ (List.getLast_mem hl)])
  rw [hr]
  exact List.dropWhile_eq_self_iff.mpr (fun hl => by simp [h _ (List.getElem_mem hl)])

theorem pyStrip_head_not (cs : List Char) (h : pyStrip cs ≠ []) :
    pyIsSpace ((pyStrip cs).head h) = false :=
  List.head_dropWhile_not pyIsSpace (cs.rdropWhile pyIsSpace) h

theorem pyStrip_last_not (cs : List Char) (h : pyStrip cs ≠ []) :
    pyIsSpace ((pyStrip cs).getLast h) = false := by
  have hM : cs.rdropWhile pyIsSpace ≠ [] := by
    intro he
    apply h
    unfold pyStrip
    rw [he]
    rfl
  have hglast := List.rdropWhile_last_not pyIsSpace cs hM
  have e3 : pyStrip cs = (cs.rdropWhile pyIsSpace).drop
      ((cs.rdropWhile pyIsSpace).takeWhile pyIsSpace).length := by
    unfold pyStrip
    exact dropWhile_eq_drop_aux _ _
  have hd : (cs.rdropWhile pyIsSpace).drop
      ((cs.rdropWhile pyIsSpace).takeWhile pyIsSpace).length ≠ [] := by
    rw [← e3]
    exact h
  have key : (pyStrip cs).getLast h = (cs.rdropWhile pyIsSpace).getLast hM := by
    have e1 : (pyStrip cs).getLast? = some ((pyStrip cs).getLast h) :=
      List.getLast?_eq_getLast _ h
    have e2 : (pyStrip cs).getLast? = some ((cs.rdropWhile pyIsSpace).getLast hM) := by
      rw [e3, List.getLast?_eq_getLast _ hd]
      congr 1
      exact List.getLast_drop hd
    exact Option.some.inj (e1.symm.trans e2)
  rw [key]
  simpa using hglast

/-- Stripping after a space-class-preserving map of an already-stripped
list changes nothing. -/
theorem pyStrip_map_pyStrip (f : Char → Char) (cs : List Char)
    (hf : ∀ c, pyIsSpace (f c) = pyIsSpace c) :
    pyStrip ((pyStrip cs).map f) = (pyStrip cs).map f := by
  have hkey : ∀ S : List Char,
      (∀ hS : S ≠ [], pyIsSpace (S.getLast hS) = false) →
      (∀ h0 : 0 < S.length, pyIsSpace (S.head (List.length_pos.mp h0)) = false) →
      pyStrip (S.map f) = S.map f := by
    intro S hSl hSh
    unfold pyStrip
    have hr : (S.map f).rdropWhile pyIsSpace = S.map f := by
      apply List.rdropWhile_eq_self_iff.mpr
      intro hl
      have hSne : S ≠ [] := by simpa using hl
      rw [List.getLast_map f S hl, hf]
      simp [hSl hSne]
    rw [hr]
    apply List.dropWhile_eq_self_iff.mpr
    intro hl
    have hS0 : 0 < S.length := by simpa using hl
    have e : (S.map f)[0] = f (S.head (List.length_pos.mp hS0)) := by
      rw [List.getElem_map, ← List.head_eq_getElem]
    simp only [List.get_eq_getElem]
    rw [e, hf]
    simp [hSh hS0]
  exact hkey (pyStrip cs) (fun hS => pyStrip_last_not cs hS)
    (fun h0 => pyStrip_head_not cs (List.length_pos.mp h0))

theorem isDigit_toNat (c : Char) (h : c.isDigit = true) :
    48 ≤ c.val.toNat ∧ c.val.toNat ≤ 57 := by
  simp only [Char.isDigit, Bool.and_eq_true, decide_eq_true_eq, ge_iff_le] at h
  obtain ⟨h1, h2⟩ := h
  have g1 : (48 : UInt32).toNat ≤ c.val.toNat := h1
  have g2 : c.val.toNat ≤ (57 : UInt32).toNat := h2
  norm_num at g1 g2
  exact ⟨g1, g2⟩

theorem digit_not_alpha (c : Char) (h : c.isDigit = true) : c.isAlpha = false := by
  obtain ⟨h1, h2⟩ := isDigit_toNat c h
  simp only [Char.isAlpha, Char.isUpper, Char.isLower, Bool.or_eq_false_iff,
    Bool.and_eq_false_iff, decide_eq_false_iff_not, not_le, ge_iff_le]
  constructor
  · left
    show ¬ (65 : UInt32) ≤ c.val
    intro hc
    have hcn : (65 : UInt32).toNat ≤ c.val.toNat := hc
    norm_num at hcn
    omega
  · left
    show ¬ (97 : UInt32) ≤ c.val
    intro hc
    have hcn : (97 : UInt32).toNat ≤ c.val.toNat := hc
    norm_num at hcn
    omega

theorem digit_not_space (c : Char) (h : c.isDigit = true) : pyIsSpace c = false := by
  by_contra hsp
  rw [Bool.not_eq_false] at hsp
  simp only [pyIsSpace, Bool.or_eq_true, decide_eq_true_eq, or_assoc] at hsp
  rcases hsp with hc | hc | hc | hc | hc | hc <;> rw [hc] at h <;> exact absurd h (by decide)

/-! ### Pattern inversion for the case-number and HS-code shapes -/

theorem isCasePattern_spec (cs : List Char) (h : isCasePattern cs = true) :
    cs.length = 9 ∧ ∀ c ∈ cs, (isCaseLetter c || c = '-' || c.isDigit) = true := by
  rcases cs with _ | ⟨l, _ | ⟨c1, _ | ⟨c2, _ | ⟨c3, _ | ⟨c4, _ | ⟨c5, _ | ⟨c6, _ | ⟨c7,
    _ | ⟨c8, _ | ⟨c9, _ | ⟨c10, rest⟩⟩⟩⟩⟩⟩⟩⟩⟩⟩⟩ <;>
      simp only [isCasePattern, Bool.and_eq_true, decide_eq_true_eq, and_assoc] at h <;>
      try exact absurd h Bool.false_ne_true
  obtain ⟨hl, h1, h2, hd1, hd2, hd3, he1, he2, he3⟩ := h
  refine ⟨rfl, ?_⟩
  intro c hc
  simp only [List.mem_cons, List.not_mem_nil, or_false] at hc
  rcases hc with hc | hc | hc | hc | hc | hc | hc | hc | hc <;> subst hc <;>
    simp [hl, h1, h2, hd1, hd2, hd3, he1, he2, he3]

theorem caseChar_facts (c : Char)
    (h : (isCaseLetter c || c = '-' || c.isDigit) = true) :
    pyIsSpace c = false ∧ c ≠ '–' ∧ c ≠ '—' ∧ c ≠ ',' ∧ c ≠ ';' ∧ c ≠ ' ' := by
  simp only [Bool.or_eq_true, decide_eq_true_eq, or_assoc] at h
  rcases h with hl | hh | hd
  · simp only [isCaseLetter, Bool.or_eq_true, decide_eq_true_eq, or_assoc] at hl
    rcases hl with hc | hc | hc | hc <;> subst hc <;>
      exact ⟨by decide, by decide, by decide, by decide, by decide, by decide⟩
  · subst hh
    exact ⟨by decide, by decide, by decide, by decide, by decide, by decide⟩
  · refine ⟨digit_not_space c hd, ?_, ?_, ?_, ?_, ?_⟩ <;>
      intro he <;> rw [he] at hd <;> exact absurd hd (by decide)

theorem usaShapeTail_all (rest : List Char) (h : usaShapeTail rest = true) :
    ∀ c ∈ rest, (c.isDigit || c = '.') = true := by
  rcases rest with _ | ⟨r, ds⟩
  · intro c hc
    simp at hc
  · intro c hc
    simp only [usaShapeTail] at h
    by_cases hr : r = '.'
    · rw [if_pos hr] at h
      simp only [Bool.and_eq_true, List.all_eq_true] at h
      rcases List.mem_cons.mp hc with he | hm
      · subst he
        simp [hr]
      · simp [h.2 c hm]
    · rw [if_neg hr] at h
      simp only [Bool.and_eq_true, List.all_eq_true] at h
      simp [h.2 c hc]

theorem usaShape_spec (cs : List Char) (h : usaShape cs = true) :
    7 ≤ cs.length ∧ ∀ c ∈ cs, (c.isDigit || c = '.') = true := by
  rcases cs with _ | ⟨a, _ | ⟨b, _ | ⟨c1, _ | ⟨d, _ | ⟨q, _ | ⟨e, _ | ⟨f, rest⟩⟩⟩⟩⟩⟩⟩ <;>
    simp only [usaShape, Bool.and_eq_true, decide_eq_true_eq, and_assoc] at h <;>
    try exact absurd h Bool.false_ne_true
  obtain ⟨ha, hb, hc1, hd, hq, he, hf, htail⟩ := h
  refine ⟨by simp, ?_⟩
  intro c hc
  simp only [List.mem_cons] at hc
  rcases hc with hc | hc | hc | hc | hc | hc | hc | hm
  · subst hc; simp [ha]
  · subst hc; simp [hb]
  · subst hc; simp [hc1]
  · subst hc; simp [hd]
  · subst hc; simp [hq]
  · subst hc; simp [he]
  · subst hc; simp [hf]
  · exact usaShapeTail_all rest htail c hm

theorem digitDot_facts (c : Char) (h : (c.isDigit || c = '.') = true) :
    c.isAlpha = false ∧ pyIsSpace c = false := by
  simp only [Bool.or_eq_true, decide_eq_true_eq] at h
  rcases h with hd | hdot
  · exact ⟨digit_not_alpha c hd, digit_not_space c hd⟩
  · subst hdot
    exact ⟨by decide, by decide⟩

/-! ### Inversion and fixed-point lemmas for the two normalizers -/

theorem normalize_case_number_some (x : Option String) (s : String)
    (h : normalize_case_number x = some s) :
    ∃ cs : List Char, s = String.mk cs ∧ isCasePattern cs = true := by
  rcases x with _ | t
  · exact absurd h (by simp [normalize_case_number])
  · simp only [normalize_case_number] at h
    split_ifs at h with h1 h2 h3 h4 <;>
      first
        | exact Option.noConfusion h
        | exact ⟨_, (Option.some.inj h).symm, by assumption⟩

theorem normalize_case_number_fix (cs : List Char) (hp : isCasePattern cs = true) :
    normalize_case_number (some (String.mk cs)) = some (String.mk cs) := by
  obtain ⟨hlen, hclass⟩ := isCasePattern_spec cs hp
  have hfacts := fun c hc => caseChar_facts c (hclass c hc)
  have hne1 : ¬ (String.mk cs = "") := by
    intro he
    have hz : cs = [] := by simpa [String.ext_iff] using he
    rw [hz] at hlen
    simp at hlen
  have hne2 : ¬ (String.mk cs = "null") := by
    intro he
    have hz : cs = ("null").data := by simpa [String.ext_iff] using he
    rw [hz] at hlen
    simp at hlen
  have hdata : (String.mk cs).data = cs := rfl
  have hnc : ¬ (',' ∈ cs) := fun hm => absurd rfl (hfacts ',' hm).2.2.2.1
  have hns : ¬ (';' ∈ cs) := fun hm => absurd rfl (hfacts ';' hm).2.2.2.2.1
  have hstrip : pyStrip cs = cs := pyStrip_eq_self cs (fun c hc => (hfacts c hc).1)
  have hmap1 : cs.map (fun c => if c = '–' then '-' else c) = cs :=
    map_eq_self_of _ cs (fun c hc => by simp [(hfacts c hc).2.1])
  have hmap2 : cs.map (fun c => if c = '—' then '-' else c) = cs :=
    map_eq_self_of _ cs (fun c hc => by simp [(hfacts c hc).2.2.1])
  have hfilter : cs.filter (fun c => c != ' ') = cs :=
    List.filter_eq_self.mpr (fun c hc => by simp [(hfacts c hc).2.2.2.2.2])
  have hcond1 : ¬ ((String.mk cs = "" || String.mk cs = "null") = true) := by
    simp [hne1, hne2]
  have hcond2 : ¬ ((cs.contains ',' || cs.contains ';') = true) := by
    simp [hnc, hns]
  simp only [normalize_case_number, hdata]
  rw [if_neg hcond1, hstrip, hmap1, hmap2, if_neg hcond2, hfilter, if_pos hp]

theorem validate_usa_hs_code_some (x : Option String) (r : String)
    (h : validate_usa_hs_code x = some r) :
    ∃ s : String, x = some s ∧ r = String.mk (pyStrip s.data) ∧
      (pyStrip s.data).any Char.isAlpha = false ∧
      startsWith7x (pyStrip s.data) = true ∧
      usaShape (pyStrip s.data) = true := by
  rcases x with _ | t
  · exact absurd h (by simp [validate_usa_hs_code])
  · simp only [validate_usa_hs_code] at h
    split_ifs at h with h1 h2 h3 h4 <;>
      first
        | exact Option.noConfusion h
        | exact ⟨t, rfl, (Option.some.inj h).symm, by simpa using h2,
            by simpa using h3, by simpa using h4⟩

theorem validate_usa_hs_code_fix (cs : List Char)
    (ha : cs.any Char.isAlpha = false) (h7 : startsWith7x cs = true)
    (hs : usaShape cs = true) :
    validate_usa_hs_code (some (String.mk cs)) = some (String.mk cs) := by
  obtain ⟨hlen, hclass⟩ := usaShape_spec cs hs
  have hfacts := fun c hc => digitDot_facts c (hclass c hc)
  have hne1 : ¬ (String.mk cs = "") := by
    intro he
    have hz : cs = [] := by simpa [String.ext_iff] using he
    rw [hz] at hlen
    simp at hlen
  have hne2 : ¬ (String.mk cs = "null") := by
    intro he
    have hz : cs = ("null").data := by simpa [String.ext_iff] using he
    rw [hz] at hlen
    simp at hlen
  have hdata : (String.mk cs).data = cs := rfl
  simp only [validate_usa_hs_code, hdata]
  rw [if_neg (by simp [hne1, hne2])]
  rw [pyStrip_eq_self cs (fun c hc => (hfacts c hc).2)]
  rw [if_neg (by simp [ha]), if_neg (by simp [h7]), if_neg (by simp [hs])]

/-! ## Claim C8 — case-identifier normalization -/

/-- C8 counterexample.  `B-123-456` matches the claimed pattern
`{LETTER}-{3 digits}-{3 digits}`, yet `normalize_case_number` discards it
to null: the source pattern accepts only the letters `A` and `C`
(`re.match(r'^[AC]-\d{3}-\d{3}$', ..., re.IGNORECASE)`). -/
theorem C8_counterexample :
    claimLetterPattern ("B-123-456").data = true ∧
    normalize_case_number (some "B-123-456") = none := by
  constructor <;> decide

/-- The cleaning pipeline of `normalize_case_number` (two dash maps, the
guarded first-segment extraction) computes the same character list as the
specification pipeline (one fused dash map, unconditional first-segment
extraction and re-strip). -/
theorem case_lists_eq (s : String) :
    (if (((pyStrip s.data).map (fun c => if c = '–' then '-' else c)).map
            (fun c => if c = '—' then '-' else c)).contains ',' ||
        (((pyStrip s.data).map (fun c => if c = '–' then '-' else c)).map
            (fun c => if c = '—' then '-' else c)).contains ';' then
        pyStrip ((((pyStrip s.data).map (fun c => if c = '–' then '-' else c)).map
            (fun c => if c = '—' then '-' else c)).takeWhile
          (fun c => !(c = ',' || c = ';')))
      else
        ((pyStrip s.data).map (fun c => if c = '–' then '-' else c)).map
          (fun c => if c = '—' then '-' else c)) =
    pyStrip (((pyStrip s.data).map
        (fun c => if c = '–' || c = '—' then '-' else c)).takeWhile
      (fun c => !(c = ',' || c = ';'))) := by
  have hfuse :
      ((pyStrip s.data).map (fun c => if c = '–' then '-' else c)).map
          (fun c => if c = '—' then '-' else c) =
        (pyStrip s.data).map (fun c => if c = '–' || c = '—' then '-' else c) := by
    rw [List.map_map]
    apply List.map_congr_left
    intro c _
    simp only [Function.comp]
    by_cases h1 : c = '–'
    · subst h1
      simp
    · by_cases h2 : c = '—'
      · subst h2
        simp
      · simp [h1, h2]
  rw [hfuse]
  set M := (pyStrip s.data).map (fun c => if c = '–' || c = '—' then '-' else c)
    with hM
  by_cases hc : (M.contains ',' || M.contains ';') = true
  · rw [if_pos hc]
  · rw [if_neg hc]
    have hcm : ¬ (',' ∈ M) ∧ ¬ (';' ∈ M) := by
      constructor <;> intro hm <;> exact hc (by simp [hm])
    have htake : M.takeWhile (fun c => !(c = ',' || c = ';')) = M := by
      apply List.takeWhile_eq_self_iff.mpr
      intro c hcmem
      have hc1 : c ≠ ',' := fun he => hcm.1 (he ▸ hcmem)
      have hc2 : c ≠ ';' := fun he => hcm.2 (he ▸ hcmem)
      simp [hc1, hc2]
    have hstrip : pyStrip M = M := by
      rw [hM]
      apply pyStrip_map_pyStrip
      intro c
      by_cases h1 : c = '–'
      · subst h1
        simp [pyIsSpace]
      · by_cases h2 : c = '—'
        · subst h2
          simp [pyIsSpace]
        · simp [h1, h2]
    rw [htake, hstrip]

/-- C8 (amended).  `normalize_case_number` equals the specification
function `caseNumberSpec`: strip, en dash and em dash become a hyphen,
keep only the first comma/semicolon-separated identifier, remove spaces,
and keep the result exactly when it matches
`{A or C, either case}-{3 digits}-{3 digits}`; all other values
(including empty, the literal "null", and any other letter) are
discarded to null. -/
theorem C8_case_number_contract (x : Option String) :
    normalize_case_number x = caseNumberSpec x := by
  rcases x with _ | s
  · rfl
  · simp only [normalize_case_number, caseNumberSpec]
    by_cases h0 : ((s = "" || s = "null") = true)
    · rw [if_pos h0, if_pos h0]
    · rw [if_neg h0, if_neg h0, case_lists_eq s]

/-! ## Claim C9 — idempotence of the scalar normalizers -/

/-- C9.  Both scalar normalizers are idempotent: applying
`normalize_case_number` or `validate_usa_hs_code` to its own output
yields the same value, for every input. -/
theorem C9_normalization_idempotent (x : Option String) :
    normalize_case_number (normalize_case_number x) = normalize_case_number x ∧
    validate_usa_hs_code (validate_usa_hs_code x) = validate_usa_hs_code x := by
  constructor
  · rcases hx : normalize_case_number x with _ | s
    · rfl
    · obtain ⟨cs, hs, hp⟩ := normalize_case_number_some x s hx
      rw [hs]
      exact normalize_case_number_fix cs hp
  · rcases hx : validate_usa_hs_code x with _ | r
    · rfl
    · obtain ⟨s, _, hr, ha, h7, hsh⟩ := validate_usa_hs_code_some x r hx
      rw [hr]
      exact validate_usa_hs_code_fix _ ha h7 hsh

/-! ## Claim C10 — the implicit chapter restriction of USA code
validation -/

/-- C10.  `validate_usa_hs_code` returns null or the stripped input
unchanged, and returns non-null only for codes with no alphabetic
character, in the `dddd.dd` grouping with an optional dot and up to four
further digits, and beginning with `72` or `73`; the sound
steel-unrelated code `2504.10.5000` is discarded to null. -/
theorem C10_usa_chapter_restriction :
    (∀ x r, validate_usa_hs_code x = some r →
      ∃ s : String, x = some s ∧ r = String.mk (pyStrip s.data) ∧
        (pyStrip s.data).any Char.isAlpha = false ∧
        startsWith7x (pyStrip s.data) = true ∧
        usaShape (pyStrip s.data) = true) ∧
    validate_usa_hs_code (some "2504.10.5000") = none := by
  constructor
  · exact fun x r h => validate_usa_hs_code_some x r h
  · decide

/-- Witness for C10: the steel code `7210.49.11` (with surrounding
whitespace) is kept, stripped, and certified by the contract. -/
theorem C10_usa_chapter_restriction_witness :
    validate_usa_hs_code (some " 7210.49.11 ") = some "7210.49.11" ∧
    ∃ s : String, (some " 7210.49.11 " : Option String) = some s ∧
      ("7210.49.11" : String) = String.mk (pyStrip s.data) ∧
      (pyStrip s.data).any Char.isAlpha = false ∧
      startsWith7x (pyStrip s.data) = true ∧
      usaShape (pyStrip s.data) = true :=
  ⟨by decide,
    (C10_usa_chapter_restriction).1 (some " 7210.49.11 ") "7210.49.11" (by decide)⟩

/-! ## Deduplication lemmas -/

theorem dedupByKeyGo_map_key {κ : Type} [DecidableEq κ] (key : Item → κ) :
    ∀ (items : List Item) (seen : List κ),
      ((dedupByKeyGo key seen items).map key).Nodup ∧
      (∀ k, k ∈ (dedupByKeyGo key seen items).map key ↔
        (k ∈ items.map key ∧ k ∉ seen)) := by
  intro items
  induction items with
  | nil =>
      intro seen
      constructor
      · simp [dedupByKeyGo]
      · intro k
        simp [dedupByKeyGo]
  | cons it rest ih =>
      intro seen
      by_cases hk : key it ∈ seen
      · rw [dedupByKeyGo, if_pos hk]
        obtain ⟨hnd, hmem⟩ := ih seen
        refine ⟨hnd, ?_⟩
        intro k
        rw [hmem k]
        simp only [List.map_cons, List.mem_cons]
        constructor
        · rintro ⟨h1, h2⟩
          exact ⟨Or.inr h1, h2⟩
        · rintro ⟨h1 | h1, h2⟩
          · subst h1
            exact absurd hk h2
          · exact ⟨h1, h2⟩
      · rw [dedupByKeyGo, if_neg hk]
        obtain ⟨hnd, hmem⟩ := ih (key it :: seen)
        constructor
        · simp only [List.map_cons, List.nodup_cons]
          refine ⟨?_, hnd⟩
          intro hmm
          exact ((hmem (key it)).mp hmm).2 (List.mem_cons_self _ _)
        · intro k
          simp only [List.map_cons, List.mem_cons, hmem k]
          constructor
          · rintro (h1 | ⟨h2, h3⟩)
            · exact ⟨Or.inl h1, h1 ▸ hk⟩
            · exact ⟨Or.inr h2, fun hs => h3 (Or.inr hs)⟩
          · rintro ⟨h1 | h1, h2⟩
            · exact Or.inl h1
            · by_cases he : k = key it
              · exact Or.inl he
              · refine Or.inr ⟨h1, ?_⟩
                rintro (hx | hx)
                · exact he hx
                · exact h2 hx

/-- The deduplicated list has one entry per distinct key of the input. -/
theorem dedupByKey_length {κ : Type} [DecidableEq κ] (key : Item → κ)
    (items : List Item) :
    (dedupByKey key items).length = (items.map key).toFinset.card := by
  obtain ⟨hnd, hmem⟩ := dedupByKeyGo_map_key key items []
  have h2 : dedupByKey key items = dedupByKeyGo key [] items := rfl
  rw [h2]
  have h1 : (dedupByKeyGo key [] items).length =
      ((dedupByKeyGo key [] items).map key).length := by simp
  rw [h1, ← List.toFinset_card_of_nodup hnd]
  congr 1
  apply Finset.ext
  intro k
  simp only [List.mem_toFinset, hmem k]
  simp

theorem dedupByKeyGo_sub {κ : Type} [DecidableEq κ] (key : Item → κ) :
    ∀ (items : List Item) (seen : List κ) (r : Item),
      r ∈ dedupByKeyGo key seen items → r ∈ items := by
  intro items
  induction items with
  | nil =>
      intro seen r hr
      simp [dedupByKeyGo] at hr
  | cons it rest ih =>
      intro seen r hr
      by_cases hk : key it ∈ seen
      · rw [dedupByKeyGo, if_pos hk] at hr
        exact List.mem_cons_of_mem _ (ih seen r hr)
      · rw [dedupByKeyGo, if_neg hk] at hr
        rcases List.mem_cons.mp hr with he | hm
        · exact he ▸ List.mem_cons_self _ _
        · exact List.mem_cons_of_mem _ (ih (key it :: seen) r hm)

/-- Sum of a constant over a list. -/
theorem sum_map_const (l : List String) (m : Nat) :
    (l.map (fun _ => m)).sum = l.length * m := by
  induction l with
  | nil => simp
  | cons a rest ih => simp [ih, Nat.succ_mul, Nat.add_comm]

theorem length_flatMap_const (codes : List String) (tmpl : List Item)
    (g : String → Item → Item) :
    (codes.flatMap (fun code => tmpl.map (g code))).length =
      codes.length * tmpl.length := by
  have h : ∀ cs : List String,
      (cs.flatMap (fun code => tmpl.map (g code))).length =
        (cs.map (fun _ => tmpl.length)).sum := by
    intro cs
    induction cs with
    | nil => rfl
    | cons a rest ih => simp [List.flatMap_cons, ih]
  rw [h, sum_map_const]

/-! ## Claim C5 — expansion completeness -/

/-- C5 counterexample.  `itemRateA` and `itemRateB` differ only in rate:
two unique templates under the claimed key (country, company, rate), so
with one code the claim demands 1 × 2 = 2 output records; the USA
expansion step (`USATextParser.process`), keyed on (country, company)
only, emits a single record. -/
theorem C5_counterexample :
    (([itemRateA, itemRateB] : List Item).map templateKey).toFinset.card = 2 ∧
    (usa_expand_items [itemRateA, itemRateB] ["7210.49.11"]).length = 1 := by
  constructor <;> decide

/-- C5 (amended).  Expansion completeness split by implementation.
Australia's `expand_hs_codes`: an empty code list passes the items
through unchanged; k codes and m unique (country, company, rate)
templates yield exactly k·m records, each one a unique template
carrying exactly one code.  USA's expansion (`usa_expand_items`): the
template key is (country, company) over the records with a truthy
country (so k·m' records for m' such templates), and an empty code set
does not pass records through — it nulls every code and deduplicates. -/
theorem C5_expansion_completeness (items : List Item) (hs_codes : List String) :
    (expand_hs_codes items [] = items) ∧
    (hs_codes ≠ [] →
      (expand_hs_codes items hs_codes).length =
        hs_codes.length * (items.map templateKey).toFinset.card ∧
      ∀ r ∈ expand_hs_codes items hs_codes, ∃ code ∈ hs_codes,
        ∃ t ∈ items, r = { t with hs_code := some code }) ∧
    (items ≠ [] → hs_codes ≠ [] →
      (usa_expand_items items hs_codes).length =
        hs_codes.length *
          ((items.filter (fun it => truthyStr it.country)).map usaInfoKey).toFinset.card) ∧
    (items ≠ [] →
      usa_expand_items items [] =
        deduplicate_items (items.map (fun it => { it with hs_code := none }))) := by
  refine ⟨by simp [expand_hs_codes], ?_, ?_, ?_⟩
  · intro hne
    have hemp : hs_codes.isEmpty = false := by
      simpa [List.isEmpty_iff] using hne
    constructor
    · rw [expand_hs_codes, hemp]
      simp only [Bool.false_eq_true, if_neg, not_false_eq_true]
      rw [length_flatMap_const hs_codes (dedupByKey templateKey items)
        (fun code t => { t with hs_code := some code })]
      rw [dedupByKey_length]
    · intro r hr
      rw [expand_hs_codes, hemp] at hr
      simp only [Bool.false_eq_true, if_neg, not_false_eq_true] at hr
      rw [List.mem_flatMap] at hr
      obtain ⟨code, hcode, hrm⟩ := hr
      obtain ⟨t, ht, he⟩ := List.mem_map.mp hrm
      exact ⟨code, hcode, t, dedupByKeyGo_sub templateKey items [] t ht, he.symm⟩
  · intro hitems hcodes
    have he1 : items.isEmpty = false := by simpa [List.isEmpty_iff] using hitems
    have he2 : hs_codes.isEmpty = false := by simpa [List.isEmpty_iff] using hcodes
    rw [usa_expand_items, he1, he2]
    simp only [Bool.false_eq_true, if_neg, not_false_eq_true]
    rw [length_flatMap_const hs_codes
      (dedupByKey usaInfoKey (items.filter (fun it => truthyStr it.country)))
      (fun code t => { t with hs_code := some code })]
    rw [dedupByKey_length]
  · intro hitems
    have he1 : items.isEmpty = false := by simpa [List.isEmpty_iff] using hitems
    rw [usa_expand_items, he1]
    simp

/-- Witness for C5 (amended): two codes and the two rate-distinct
templates give 2·2 = 4 Australian records, every record a template with
one code. -/
theorem C5_expansion_completeness_witness :
    (["7208.10.00", "7209.15.00"] : List String) ≠ [] ∧
    (expand_hs_codes [itemRateA, itemRateB] ["7208.10.00", "7209.15.00"]).length =
      (["7208.10.00", "7209.15.00"] : List String).length *
        (([itemRateA, itemRateB] : List Item).map templateKey).toFinset.card ∧
    ∀ r ∈ expand_hs_codes [itemRateA, itemRateB] ["7208.10.00", "7209.15.00"],
      ∃ code ∈ (["7208.10.00", "7209.15.00"] : List String),
        ∃ t ∈ ([itemRateA, itemRateB] : List Item),
          r = { t with hs_code := some code } :=
  ⟨by decide,
    (C5_expansion_completeness [itemRateA, itemRateB]
      ["7208.10.00", "7209.15.00"]).2.1 (by decide)⟩

/-! ## Claim C7 — validation rejection locality -/

/-- C7 counterexample.  The EU normalizer drops the whole record: a
record whose truthy code `123` fails 8-digit normalization does not
survive `post_process_items` — the output list is empty. -/
theorem C7_counterexample :
    truthyStr itemBadCode.hs_code = true ∧
    normalize_hs_code itemBadCode.hs_code = none ∧
    post_process_items [itemBadCode] none = [] := by
  refine ⟨by decide, by decide, by decide⟩

/-- C7 (amended).  Field-failure locality depends on the parser.  USA
(`USATextParser.parse_response` validation step): each record survives in
place with its code replaced by the validated form (null on failure) —
the step never removes a record (the subsequent deduplication may).  EU
(`EUTextParser.post_process_items`): a record whose truthy code fails
normalization is dropped entirely; one whose code normalizes survives
with the formatted code. -/
theorem C7_validation_locality (items : List Item) (it : Item)
    (rest : List Item) (mip : Option String) :
    (usaValidateCodes items).length = items.length ∧
    (∀ i : Nat, (usaValidateCodes items)[i]? =
      (items[i]?).map (fun x => { x with hs_code := validate_usa_hs_code x.hs_code })) ∧
    (truthyStr it.hs_code = true → normalize_hs_code it.hs_code = none →
      post_process_items (it :: rest) mip = post_process_items rest mip) ∧
    (truthyStr it.hs_code = true → ∀ n, normalize_hs_code it.hs_code = some n →
      post_process_items (it :: rest) mip =
        addMipNote { it with hs_code := some n } mip :: post_process_items rest mip) := by
  refine ⟨by simp [usaValidateCodes], ?_, ?_, ?_⟩
  · intro i
    simp [usaValidateCodes, List.getElem?_map]
  · intro ht hn
    rw [post_process_items, if_pos ht, hn]
  · intro ht n hn
    rw [post_process_items, if_pos ht, hn]

/-- Witness for C7 (amended): instantiated on `itemBadCode`, whose code
is truthy and unnormalizable, and on the singleton USA batch. -/
theorem C7_validation_locality_witness :
    truthyStr itemBadCode.hs_code = true ∧
    normalize_hs_code itemBadCode.hs_code = none ∧
    (usaValidateCodes [itemBadCode]).length = ([itemBadCode] : List Item).length ∧
    post_process_items ([itemBadCode] : List Item) none = post_process_items [] none :=
  ⟨by decide, by decide,
    (C7_validation_locality [itemBadCode] itemBadCode [] none).1,
    (C7_validation_locality [itemBadCode] itemBadCode [] none).2.2.1
      (by decide) (by decide)⟩

/-- One recovery-scan step only ever appends to the recovered list:
no branch of the loop body removes or rewrites an emitted record. -/
lemma scanStep_found_mono (st : ScanState) (c : Char) :
    ∃ t, (scanStep st c).found_items = st.found_items ++ t := by
  simp only [scanStep]
  split_ifs
  all_goals try split
  all_goals try (rename_i item _; exact ⟨[item], rfl⟩)
  all_goals exact ⟨[], (List.append_nil _).symm⟩

/-- The whole recovery scan is append-only in the recovered list. -/
lemma scanFold_found_mono (cs : List Char) : ∀ st : ScanState,
    ∃ t, (List.foldl scanStep st cs).found_items = st.found_items ++ t := by
  induction cs with
  | nil => exact fun st => ⟨[], by simp⟩
  | cons c rest ih =>
      intro st
      obtain ⟨t1, h1⟩ := scanStep_found_mono st c
      obtain ⟨t2, h2⟩ := ih (scanStep st c)
      exact ⟨t1 ++ t2, by rw [List.foldl_cons, h2, h1, List.append_assoc]⟩

/-- Dropping from the right by a predicate false at the last element
drops nothing. -/
lemma rdropWhile_eq_self_of_last (p : Char → Bool) (l : List Char) (c : Char)
    (hgl : l.getLast? = some c) (hc : p c = false) :
    l.rdropWhile p = l := by
  rw [List.rdropWhile_eq_self_iff]
  intro hl
  have h1 := List.getLast?_eq_getLast l hl
  rw [hgl] at h1
  have h2 : l.getLast hl = c := (Option.some.inj h1).symm
  rw [h2, hc]
  simp

/-- `strip()` leaves an object span (opening brace … closing brace)
untouched: neither end is whitespace. -/
lemma pyStrip_span (body : List Char) :
    pyStrip ('\x7b' :: (body ++ ['\x7d'])) = '\x7b' :: (body ++ ['\x7d']) := by
  have hgl : (('\x7b' :: (body ++ ['\x7d'])) : List Char).getLast? = some '\x7d' := by
    rw [← List.cons_append]
    exact List.getLast?_concat _
  unfold pyStrip
  rw [rdropWhile_eq_self_of_last pyIsSpace _ '\x7d' hgl (by decide),
    List.dropWhile_cons, if_neg (by decide : ¬ (pyIsSpace '\x7b' = true))]

/-- `rstrip(',')` leaves an object span untouched: it ends in the
closing brace, not a comma. -/
lemma rstripCommas_span (body : List Char) :
    rstripCommas ('\x7b' :: (body ++ ['\x7d'])) = '\x7b' :: (body ++ ['\x7d']) := by
  have hgl : (('\x7b' :: (body ++ ['\x7d'])) : List Char).getLast? = some '\x7d' := by
    rw [← List.cons_append]
    exact List.getLast?_concat _
  exact rdropWhile_eq_self_of_last _ _ '\x7d' hgl (by decide)

/-- One scan step on a character that is no brace and no backslash,
inside a span: depth stays 1 (so nothing is emitted), the character is
buffered, and a quote flips the string flag. -/
lemma scanStep_nobrace (pre : List Char) (b : Bool) (acc : List Json) (c : Char)
    (h1 : c ≠ '\x7b') (h2 : c ≠ '\x7d') (h3 : c ≠ '\\') :
    scanStep ⟨1, pre, b, false, acc⟩ c
      = ⟨1, pre ++ [c], if c = '"' then !b else b, false, acc⟩ := by
  by_cases hq : c = '"'
  · subst hq
    simp [scanStep, h1, h2, h3]
  · simp [scanStep, h1, h2, h3, hq]

/-- Scanning a brace-free, backslash-free span body from depth 1 only
buffers it, flipping the string flag once per quote. -/
lemma scanFold_nobrace (body : List Char) : ∀ pre b acc,
    (∀ c ∈ body, c ≠ '\x7b' ∧ c ≠ '\x7d' ∧ c ≠ '\\') →
    List.foldl scanStep ⟨1, pre, b, false, acc⟩ body
      = ⟨1, pre ++ body, quoteFlip b body, false, acc⟩ := by
  induction body with
  | nil =>
      intro pre b acc _
      simp [quoteFlip]
  | cons c rest ih =>
      intro pre b acc hb
      obtain ⟨h1, h2, h3⟩ := hb c (by simp)
      rw [List.foldl_cons, scanStep_nobrace pre b acc c h1 h2 h3,
        ih (pre ++ [c]) _ acc (fun d hd => hb d (by simp [hd]))]
      simp [quoteFlip, List.append_assoc]

/-- The closing brace of an isolation-parseable span (from depth 1,
outside a string, with the span in the buffer) emits its record and
resets the buffer. -/
lemma scanStep_close (body : List Char) (v : Json)
    (hp : Json.parse (String.mk ('\x7b' :: (body ++ ['\x7d']))) = some v) :
    scanStep ⟨1, '\x7b' :: body, false, false, []⟩ '\x7d'
      = ⟨0, [], false, false, [v]⟩ := by
  have hps := pyStrip_span body
  have hrc := rstripCommas_span body
  have hgl : (('\x7b' :: (body ++ ['\x7d'])) : List Char).getLast? = some '\x7d' := by
    rw [← List.cons_append]
    exact List.getLast?_concat _
  simp [scanStep, List.cons_append, hps, hrc, hgl, hp]

/-- Any brace-free, backslash-free, quote-balanced object span that
parses correctly in isolation is emitted by its own scan, with the
state fully reset — an infinite family of spans satisfying the premise
of the first-span salvage guarantee. -/
lemma scan_span_emits (body : List Char) (v : Json)
    (hb : ∀ c ∈ body, c ≠ '\x7b' ∧ c ≠ '\x7d' ∧ c ≠ '\\')
    (hq : quoteFlip false body = false)
    (hp : Json.parse (String.mk ('\x7b' :: (body ++ ['\x7d']))) = some v) :
    List.foldl scanStep scanInit ('\x7b' :: (body ++ ['\x7d']))
      = ⟨0, [], false, false, [v]⟩ := by
  have h0 : scanStep scanInit '\x7b' = ⟨1, ['\x7b'], false, false, []⟩ := rfl
  have h1 := scanFold_nobrace body ['\x7b'] false [] hb
  have h2 : List.foldl scanStep scanInit ('\x7b' :: body)
      = ⟨1, '\x7b' :: body, false, false, []⟩ := by
    rw [List.foldl_cons, h0, h1, hq]
    simp
  rw [← List.cons_append, List.foldl_append, h2]
  simp only [List.foldl_cons, List.foldl_nil]
  exact scanStep_close body v hp

/-- C6 — counterexample.  `responseC6` carries two top-level object
spans that each parse correctly in isolation (first two conjuncts), yet
the full pipeline recovers only ONE record: the comma separator kept in
the buffer after the failed middle span poisons every later span (the
buffer is never reset on a failed parse), so fewer than n records come
back, refuting "at least n records — every valid top-level object span
is emitted". -/
theorem C6_counterexample :
    Json.parse "\x7b\"a\": 1\x7d" = some (Json.obj [("a", Json.num 1)]) ∧
    Json.parse "\x7b\"b\": 2\x7d" = some (Json.obj [("b", Json.num 2)]) ∧
    parse_response responseC6 = some [jsonA] :=
  ⟨rfl, rfl, rfl⟩

/-- C6 (amended).  What the recovery scan does guarantee, for an
arbitrary span: (a) it is append-only — from any scan state, folding
any character stream only ever extends the recovered list, so emitted
records are never retracted; (b) every brace-free, backslash-free,
quote-balanced object span that parses correctly in isolation is
emitted by its own scan with the state fully reset — an infinite family
of spans satisfying the premise `hscan`; (c) any span whose isolated
scan emits exactly the record `v` — any valid top-level object span
standing FIRST in the captured items content — is recovered whatever
tail follows it.  Spans after the first failed parse enjoy no such
guarantee, because the failed span's characters (and the separating
comma) stay in the buffer. -/
theorem C6_salvage_first_span (span t : List Char) (v : Json)
    (hscan : List.foldl scanStep scanInit span = ⟨0, [], false, false, [v]⟩) :
    (∀ st : ScanState, ∀ cs : List Char,
      ∃ tail, (List.foldl scanStep st cs).found_items = st.found_items ++ tail) ∧
    (∀ body : List Char, ∀ w : Json,
      (∀ c ∈ body, c ≠ '\x7b' ∧ c ≠ '\x7d' ∧ c ≠ '\\') →
      quoteFlip false body = false →
      Json.parse (String.mk ('\x7b' :: (body ++ ['\x7d']))) = some w →
      List.foldl scanStep scanInit ('\x7b' :: (body ++ ['\x7d']))
        = ⟨0, [], false, false, [w]⟩) ∧
    (∃ tail, recoverItems (span ++ t) = v :: tail) := by
  refine ⟨fun st cs => scanFold_found_mono cs st,
    fun body w hb hq hp => scan_span_emits body w hb hq hp, ?_⟩
  obtain ⟨tail, ht⟩ :=
    scanFold_found_mono t (⟨0, [], false, false, [v]⟩ : ScanState)
  refine ⟨tail, ?_⟩
  rw [recoverItems, List.foldl_append, hscan, ht]
  rfl

/-- Witness for C6 (amended): the premise is discharged by computation
at the concrete first span of `responseC6`, and the guarantee is read
off against the concrete poisoned tail. -/
theorem C6_salvage_first_span_witness :
    (List.foldl scanStep scanInit (("\x7b\"a\": 1\x7d").data)
      = (⟨0, [], false, false, [jsonA]⟩ : ScanState)) ∧
    (∃ tail, recoverItems
        (("\x7b\"a\": 1\x7d").data ++ (", \x7bbad\x7d, \x7b\"b\": 2\x7d").data)
      = jsonA :: tail) :=
  ⟨rfl, (C6_salvage_first_span (("\x7b\"a\": 1\x7d").data)
    ((", \x7bbad\x7d, \x7b\"b\": 2\x7d").data) jsonA rfl).2.2⟩

end Tariff
